import Mathlib

/-!
Verification of the Connect-Four repository (swiffo/Connect-Four).

This file is a shallow embedding of the Python sources:

* `connectfour.py`      — the board engine (`ConnectFour` class),
* `connectfourutils.py` — `count_open_positions`,
* `connectfourplayers.py` — the afterstate players,
* `connectfourgame.py`  — the match orchestrator (`ConnectFourMatch.play`).

Conventions of the embedding:

* numpy `int8` grid entries `EMPTY = 0`, `WHITE = 1`, `RED = 2` become the
  inductive type `Cell`.
* The 6×7 board grid (`self._grid`, position (0,0) lower-left, indexed
  `[row, column]`) is represented column-major: a list of 7 columns, each a
  list of 6 cells ordered bottom-to-top.  Reads of `self._grid[row, column]`
  become list lookups.
* Mutation of the board becomes explicit state passing: `add_disc` returns
  an `Except` value — `Except.error` corresponds to a raised Python
  exception (`IllegalMove`, numpy `IndexError`, `ValueError`), `Except.ok`
  to normal return with the updated board.
* numpy integer indexing semantics are modelled exactly: an index `i` into
  an axis of length `n` is valid when `-n ≤ i < n`, negative indices wrap
  (`i + n`), anything else raises `IndexError`.
-/

inductive Cell where
  | empty
  | white
  | red
deriving DecidableEq, Repr

/-- `other_colour` from connectfour.py: swaps WHITE and RED, raises
`ValueError` (modelled as `none`) otherwise. -/
def other_colour : Cell → Option Cell
  | Cell.red => some Cell.white
  | Cell.white => some Cell.red
  | Cell.empty => none

/-- The game grid: 7 columns, each a list of 6 cells ordered bottom-to-top. -/
abbrev BoardGrid : Type := List (List Cell)

/-- The `ConnectFour` object: the grid together with `self._winner`
(`None` = `none`). -/
structure ConnectFour where
  grid : BoardGrid
  winner : Option Cell
deriving DecidableEq, Repr

/-- `ROWS = 6` -/
def ROWS : ℕ := 6

/-- `COLUMNS = 7` -/
def COLUMNS : ℕ := 7

/-- The grid of a fresh `ConnectFour()`: 6×7 all EMPTY. -/
def empty_grid : BoardGrid := List.replicate COLUMNS (List.replicate ROWS Cell.empty)

/-- A fresh `ConnectFour()` object. -/
def init_board : ConnectFour := ⟨empty_grid, none⟩

/-- Read `self._grid[row, column]` for integer coordinates that are already
known to be in range `0 ≤ row < ROWS`, `0 ≤ col < COLUMNS`; returns `none`
when out of range.  This is used by the winner scan, whose Python code
checks the bounds explicitly before reading. -/
def cellAt (g : BoardGrid) (row col : ℤ) : Option Cell :=
  if 0 ≤ row ∧ row < (ROWS : ℤ) ∧ 0 ≤ col ∧ col < (COLUMNS : ℤ) then
    some ((g.getD col.toNat []).getD row.toNat Cell.empty)
  else
    none

/-- The four scan directions `[(1, 0), (0, 1), (1, 1), (1, -1)]` of
`_check_winner_at_location` (first component is the row jump `x_jump`).
`count_open_positions` in connectfourutils.py uses the same list. -/
def directions : List (ℤ × ℤ) := [(1, 0), (0, 1), (1, 1), (1, -1)]

/-- The inner `while True` loop of `_check_winner_at_location` for one sense
of one direction: starting from `(row, col)` (exclusive), keep stepping by
`(dx, dy)` and count consecutive cells equal to `colour`; the loop breaks on
leaving the grid or on a different cell (`cellAt _ _ _ ≠ some colour` covers
both).  The loop always breaks within `ROWS + COLUMNS` steps, so running the
recursion on that much fuel is exact. -/
def same_colour_count (g : BoardGrid) (colour : Cell) (row col dx dy : ℤ) : ℕ → ℕ
  | 0 => 0
  | fuel + 1 =>
    if cellAt g (row + dx) (col + dy) = some colour then
      same_colour_count g colour (row + dx) (col + dy) dx dy fuel + 1
    else
      0

/-- Fuel used for the winner scan; any value above `ROWS + COLUMNS` is exact. -/
def scanFuel : ℕ := ROWS + COLUMNS

/-- A raw numpy read `self._grid[row, col]`: indices in `[-n, n)` are
valid and negative ones wrap; anything else raises `IndexError` (`none`;
unreachable from this repository's call sites). -/
def numpy_cell_read (g : BoardGrid) (row col : ℤ) : Option Cell :=
  if -(ROWS : ℤ) ≤ row ∧ row < (ROWS : ℤ) ∧ -(COLUMNS : ℤ) ≤ col ∧ col < (COLUMNS : ℤ) then
    some ((g.getD (if col < 0 then col + (COLUMNS : ℤ) else col).toNat []).getD
      (if row < 0 then row + (ROWS : ℤ) else row).toNat Cell.empty)
  else
    none

/-- `_check_winner_at_location(row, column)`: reads the colour at the
location with a raw numpy read (so a negative `column` wraps for this one
read; False if EMPTY), then for each of the four directions counts
consecutive same-colour cells in both opposite senses (jump and negated
jump) anchored at the RAW `(row, col)` — the scan loop breaks at
`y_pos < 0` before any read, so it never wraps — starting from 1 for the
location itself; any total ≥ 4 wins. -/
def check_winner_at_location (g : BoardGrid) (row col : ℤ) : Bool :=
  match numpy_cell_read g row col with
  | none => false
  | some colour =>
    if colour = Cell.empty then
      false
    else
      directions.any fun d =>
        4 ≤ 1 + same_colour_count g colour row col d.1 d.2 scanFuel
              + same_colour_count g colour row col (-d.1) (-d.2) scanFuel

/-- Python exceptions that the board engine can raise. -/
inductive MoveErr where
  | illegalMove
  | indexError
  | valueError
deriving DecidableEq, Repr

deriving instance DecidableEq for Except

/-- numpy semantics of an integer index into axis 1 (length `COLUMNS`):
negative indices wrap by adding `COLUMNS`. -/
def effective_column (column : ℤ) : ℤ :=
  if column < 0 then column + (COLUMNS : ℤ) else column

/-- Whether `self._grid[row, column]` is a valid numpy access in the column
axis: `-COLUMNS ≤ column < COLUMNS`.  Outside this range numpy raises
`IndexError` (which no caller in the repository catches). -/
def column_in_numpy_range (column : ℤ) : Prop :=
  -(COLUMNS : ℤ) ≤ column ∧ column < (COLUMNS : ℤ)

instance (column : ℤ) : Decidable (column_in_numpy_range column) := by
  unfold column_in_numpy_range
  infer_instance

/-- The row where `add_disc`/`next_state_identifier` would place a disc in
`column`: the `for row in range(ROWS)` loop breaking at the first EMPTY
cell.  `none` means the loop falls through (`IllegalMove`). -/
def placed_row (g : BoardGrid) (column : ℤ) : Option ℕ :=
  (g.getD (effective_column column).toNat []).findIdx? fun c => c = Cell.empty

/-- `ConnectFour.add_disc(column, colour)`.

The Python loop scans rows 0..5 of `self._grid[:, column]` for the first
EMPTY cell; if `column` is outside numpy range the very first read raises
`IndexError`; if no EMPTY cell exists the loop's `else` raises
`IllegalMove`.  Otherwise the cell is set to `colour`, then
`_check_winner_at_location(row, column)` runs on the updated grid — with
the RAW `column` argument, not the wrapped one, so for a negative column
the scans are anchored at the phantom index while the disc sits in the
wrapped column — and on success `self._winner = colour` (note:
unconditionally, even when a winner was already recorded). -/
def add_disc (b : ConnectFour) (column : ℤ) (colour : Cell) : Except MoveErr ConnectFour :=
  if column_in_numpy_range column then
    let eff : ℕ := (effective_column column).toNat
    match placed_row b.grid column with
    | none => Except.error MoveErr.illegalMove
    | some row =>
      let newCol := (b.grid.getD eff []).set row colour
      let g := b.grid.set eff newCol
      if check_winner_at_location g (row : ℤ) column then
        Except.ok ⟨g, some colour⟩
      else
        Except.ok ⟨g, b.winner⟩
  else
    Except.error MoveErr.indexError

/-- `ConnectFour.legal_moves()`: columns whose top cell
(`self._grid[ROWS-1, col]`) is EMPTY. -/
def legal_moves (b : ConnectFour) : List ℕ :=
  (List.range COLUMNS).filter fun col =>
    (b.grid.getD col []).getD (ROWS - 1) Cell.empty = Cell.empty

/-- The per-column loop of `state_identifier`: walk the column bottom-to-top
with a running `row_multiplier` (1, 3, 9, …); WHITE adds `2 * multiplier`,
RED adds `multiplier`, EMPTY breaks. -/
def column_identifier_aux : List Cell → ℕ → ℕ
  | [], _ => 0
  | c :: rest, mult =>
    match c with
    | Cell.white => 2 * mult + column_identifier_aux rest (3 * mult)
    | Cell.red => mult + column_identifier_aux rest (3 * mult)
    | Cell.empty => 0

/-- The base-3 identifier of one column (`column_identifier` in
`state_identifier`). -/
def column_identifier (col : List Cell) : ℕ :=
  column_identifier_aux col 1

/-- `ConnectFour.state_identifier()`: the tuple of the 7 per-column
identifiers. -/
def state_identifier (b : ConnectFour) : List ℕ :=
  b.grid.map column_identifier

/-- `ConnectFour.next_state_identifier(column, colour)`: find the first
EMPTY row of the column (same loop and numpy semantics as `add_disc`,
raising `IndexError`/`IllegalMove` the same way), then add
`2 * 3**row` (WHITE) or `3**row` (RED) to that column's entry of
`state_identifier()`; an unhandled colour raises `ValueError`.  The method
never writes to `self._grid`, which the purity of this definition reflects. -/
def next_state_identifier (b : ConnectFour) (column : ℤ) (colour : Cell) :
    Except MoveErr (List ℕ) :=
  if column_in_numpy_range column then
    match placed_row b.grid column with
    | none => Except.error MoveErr.illegalMove
    | some row =>
      let ident := state_identifier b
      let eff : ℕ := (effective_column column).toNat
      match colour with
      | Cell.white => Except.ok (ident.set eff (ident.getD eff 0 + 2 * 3 ^ row))
      | Cell.red => Except.ok (ident.set eff (ident.getD eff 0 + 3 ^ row))
      | Cell.empty => Except.error MoveErr.valueError
  else
    Except.error MoveErr.indexError

/-- Apply a list of `(column, colour)` moves with `add_disc`, stopping at
the first exception. -/
def apply_moves (b : ConnectFour) (moves : List (ℤ × Cell)) : Except MoveErr ConnectFour :=
  moves.foldlM (fun acc m => add_disc acc m.1 m.2) b

/-! ## State identifier encoding (claims about `state_identifier`) -/

/-- Digit assignment asserted by the specification: digit 1 for ColorA
(White) and digit 2 for ColorB (Red). -/
def claim_digit : Cell → ℕ
  | Cell.white => 1
  | Cell.red => 2
  | Cell.empty => 0

/-- Digit assignment actually implemented by `state_identifier`: digit 2
for White, digit 1 for Red. -/
def code_digit : Cell → ℕ
  | Cell.white => 2
  | Cell.red => 1
  | Cell.empty => 0

/-- Base-3 column code built from a digit assignment, stated the way the
specification describes it: the occupied cells from bottom to top (stopping
at the first Empty cell) contribute their digit at increasing place value. -/
def described_column_code (digit : Cell → ℕ) (col : List Cell) : ℕ :=
  (col.takeWhile fun c => c ≠ Cell.empty).foldr (fun c acc => digit c + 3 * acc) 0

/-- The column-identifier tuple described by the specification's own words
(digit 1 for White, digit 2 for Red). -/
def claim_state_identifier (b : ConnectFour) : List ℕ :=
  b.grid.map (described_column_code claim_digit)

/-- `column_identifier_aux` scales linearly in its multiplier argument. -/
theorem column_identifier_aux_mult (col : List Cell) :
    ∀ mult, column_identifier_aux col mult = mult * column_identifier_aux col 1 := by
  induction col with
  | nil => intro mult; simp [column_identifier_aux]
  | cons c rest ih =>
    intro mult
    cases c with
    | empty => simp [column_identifier_aux]
    | white =>
      simp only [column_identifier_aux]
      rw [ih (3 * mult), ih 3]
      ring
    | red =>
      simp only [column_identifier_aux]
      rw [ih (3 * mult), ih 3]
      ring

/-- Unfolding of the described code on a non-empty bottom cell. -/
theorem described_column_code_cons (digit : Cell → ℕ) (c : Cell) (rest : List Cell)
    (h : c ≠ Cell.empty) :
    described_column_code digit (c :: rest) = digit c + 3 * described_column_code digit rest := by
  simp [described_column_code, List.takeWhile_cons_of_pos, h]

/-- The loop of `state_identifier` computes the bottom-to-top base-3 code
with digit 2 for White and digit 1 for Red. -/
theorem column_identifier_eq_described (col : List Cell) :
    column_identifier col = described_column_code code_digit col := by
  induction col with
  | nil => simp [column_identifier, column_identifier_aux, described_column_code]
  | cons c rest ih =>
    cases c with
    | empty => simp [column_identifier, column_identifier_aux, described_column_code]
    | white =>
      rw [described_column_code_cons code_digit Cell.white rest (by simp)]
      simp only [column_identifier, column_identifier_aux] at ih ⊢
      rw [column_identifier_aux_mult rest 3, ih, code_digit]
    | red =>
      rw [described_column_code_cons code_digit Cell.red rest (by simp)]
      simp only [column_identifier, column_identifier_aux] at ih ⊢
      rw [column_identifier_aux_mult rest 3, ih, code_digit]

/-- A board holding a single White disc at the bottom of column 0 (the
result of the first move `add_disc(0, WHITE)` on a fresh board). -/
def single_white_board : Except MoveErr ConnectFour :=
  add_disc init_board 0 Cell.white

/-- C6 counterexample: on the board with one White disc in column 0,
`state_identifier` returns `(2, 0, …, 0)` while the specified digit
assignment (1 for White, 2 for Red) predicts `(1, 0, …, 0)`. -/
theorem state_identifier_digits_counterexample :
    single_white_board.toOption.map state_identifier ≠
      single_white_board.toOption.map claim_state_identifier := by
  decide

/-- C6 amended: `state_identifier` is the ordered tuple over the 7 columns
of the base-3 number in which the occupied cells from bottom to top
contribute digit 2 for White and digit 1 for Red at increasing place value,
stopping at the first Empty cell; being a function of the grid alone, it is
independent of the order in which the discs were placed. -/
theorem state_identifier_spec (b : ConnectFour) :
    state_identifier b = b.grid.map (described_column_code code_digit) := by
  unfold state_identifier
  exact List.map_congr_left fun col _ => column_identifier_eq_described col

/-- A move list that fills column 0 with discs of alternating colour
(7 attempts: the 7th hits a full column). -/
def full_column_moves : List (ℤ × Cell) :=
  [(0, Cell.white), (0, Cell.red), (0, Cell.white), (0, Cell.red),
   (0, Cell.white), (0, Cell.red), (0, Cell.white)]

/-- C3: concrete behaviour of `add_disc`/`next_state_identifier` at
out-of-range and full columns.  Column 7 raises numpy `IndexError`, not
`IllegalMove`; column -1 wraps around and *places a disc in column 6*
(mutating the board) instead of failing; a full in-range column does raise
`IllegalMove` (the error return carries no board, i.e. the board is
unchanged). -/
theorem out_of_range_column_behaviour :
    add_disc init_board 7 Cell.white = Except.error MoveErr.indexError ∧
    next_state_identifier init_board 7 Cell.white = Except.error MoveErr.indexError ∧
    (add_disc init_board (-1) Cell.white).toOption.map
        (fun b => (b.grid.getD 6 []).getD 0 Cell.empty) = some Cell.white ∧
    apply_moves init_board full_column_moves = Except.error MoveErr.illegalMove ∧
    (apply_moves init_board (full_column_moves.take 6)).toOption.map
        (fun b => next_state_identifier b 0 Cell.white) =
      some (Except.error MoveErr.illegalMove) := by
  decide

/-- Moves after which White has four discs in column 0 (White has won). -/
def white_wins_moves : List (ℤ × Cell) :=
  [(0, Cell.white), (1, Cell.red), (0, Cell.white), (1, Cell.red),
   (0, Cell.white), (1, Cell.red), (0, Cell.white)]

/-- C2 counterexample: after `white_wins_moves` the recorded winner is
White, yet one further `add_disc(1, RED)` — which completes a vertical
four for Red — overwrites the winner to Red.  A later `add_disc` call can
therefore change an already-set winner. -/
theorem winner_overwritten_counterexample :
    (apply_moves init_board white_wins_moves).toOption.map ConnectFour.winner =
        some (some Cell.white) ∧
    (apply_moves init_board (white_wins_moves ++ [(1, Cell.red)])).toOption.map
        ConnectFour.winner = some (some Cell.red) := by
  decide

/-! ## Win detection: specification-side predicate and equivalence -/

/-- The specification's notion of a win at a just-placed cell: in one of the
4 line directions there is a window of 4 consecutive cells, containing the
placed cell (`t` is the placed cell's position inside the window), all of
which lie on the grid and hold `colour` — i.e. the placed cell lies in a
run of at least 4 consecutive same-colour cells. -/
def spec_win (g : BoardGrid) (row col : ℤ) (colour : Cell) : Prop :=
  ∃ d ∈ directions, ∃ t : Fin 4, ∀ j : Fin 4,
    cellAt g (row + (((j : ℕ) : ℤ) - ((t : ℕ) : ℤ)) * d.1)
             (col + (((j : ℕ) : ℤ) - ((t : ℕ) : ℤ)) * d.2) = some colour

instance (g : BoardGrid) (row col : ℤ) (colour : Cell) :
    Decidable (spec_win g row col colour) := by
  unfold spec_win
  infer_instance

/-- Every step counted by the scan loop holds the scanned colour: if the
count is at least `j ≥ 1`, the cell `j` steps away holds `colour`. -/
theorem same_colour_count_sound (g : BoardGrid) (colour : Cell) :
    ∀ (fuel : ℕ) (row col dx dy : ℤ) (j : ℕ), 1 ≤ j →
      j ≤ same_colour_count g colour row col dx dy fuel →
      cellAt g (row + (j : ℤ) * dx) (col + (j : ℤ) * dy) = some colour := by
  intro fuel
  induction fuel with
  | zero =>
    intro row col dx dy j h1 h2
    simp [same_colour_count] at h2
    omega
  | succ fuel ih =>
    intro row col dx dy j h1 h2
    rw [same_colour_count] at h2
    by_cases hc : cellAt g (row + dx) (col + dy) = some colour
    · rw [if_pos hc] at h2
      rcases Nat.lt_or_ge j 2 with hj | hj
      · have : j = 1 := by omega
        subst this
        simpa using hc
      · have hrec : j - 1 ≤ same_colour_count g colour (row + dx) (col + dy) dx dy fuel := by
          omega
        have := ih (row + dx) (col + dy) dx dy (j - 1) (by omega) hrec
        have harith : (row + dx) + ((j - 1 : ℕ) : ℤ) * dx = row + (j : ℤ) * dx := by
          have : ((j - 1 : ℕ) : ℤ) = (j : ℤ) - 1 := by omega
          rw [this]; ring
        have harith2 : (col + dy) + ((j - 1 : ℕ) : ℤ) * dy = col + (j : ℤ) * dy := by
          have : ((j - 1 : ℕ) : ℤ) = (j : ℤ) - 1 := by omega
          rw [this]; ring
        rwa [harith, harith2] at this
    · rw [if_neg hc] at h2
      omega

/-- Conversely, if the `k` cells after the start all hold `colour` and the
fuel is at least `k`, the scan counts at least `k`. -/
theorem same_colour_count_complete (g : BoardGrid) (colour : Cell) :
    ∀ (fuel : ℕ) (row col dx dy : ℤ) (k : ℕ), k ≤ fuel →
      (∀ j : ℕ, 1 ≤ j → j ≤ k →
        cellAt g (row + (j : ℤ) * dx) (col + (j : ℤ) * dy) = some colour) →
      k ≤ same_colour_count g colour row col dx dy fuel := by
  intro fuel
  induction fuel with
  | zero => intro row col dx dy k hk _; omega
  | succ fuel ih =>
    intro row col dx dy k hk hcells
    cases k with
    | zero => omega
    | succ k0 =>
      have h1 : cellAt g (row + dx) (col + dy) = some colour := by
        have := hcells 1 (by omega) (by omega)
        simpa using this
      rw [same_colour_count, if_pos h1]
      have : k0 ≤ same_colour_count g colour (row + dx) (col + dy) dx dy fuel := by
        apply ih (row + dx) (col + dy) dx dy k0 (by omega)
        intro j hj1 hj2
        have := hcells (j + 1) (by omega) (by omega)
        have harith : (row + dx) + (j : ℤ) * dx = row + ((j + 1 : ℕ) : ℤ) * dx := by
          push_cast; ring
        have harith2 : (col + dy) + (j : ℤ) * dy = col + ((j + 1 : ℕ) : ℤ) * dy := by
          push_cast; ring
        rw [harith, harith2]
        exact this
      omega

/-- At non-negative coordinates a raw numpy read agrees with the
bounds-checked read. -/
theorem numpy_cell_read_eq_cellAt (g : BoardGrid) (row col : ℤ)
    (hr : 0 ≤ row) (hc : 0 ≤ col) :
    numpy_cell_read g row col = cellAt g row col := by
  unfold numpy_cell_read cellAt ROWS COLUMNS
  have h1 : ¬ col < 0 := by omega
  have h2 : ¬ row < 0 := by omega
  simp only [h1, h2, if_false, ite_false]
  by_cases h3 : row < 6 ∧ col < 7
  · rw [if_pos (by push_cast; omega), if_pos (by push_cast; omega)]
  · rw [if_neg (by push_cast; omega), if_neg (by push_cast; omega)]

/-- The code's winner check at an occupied in-grid cell (non-negative
coordinates) agrees exactly with the specification's run-of-4 predicate. -/
theorem check_winner_iff_spec_win (g : BoardGrid) (row col : ℤ) (colour : Cell)
    (hc : cellAt g row col = some colour) (hne : colour ≠ Cell.empty) :
    check_winner_at_location g row col = true ↔ spec_win g row col colour := by
  have hnn : 0 ≤ row ∧ 0 ≤ col := by
    unfold cellAt at hc
    by_cases h : 0 ≤ row ∧ row < (ROWS : ℤ) ∧ 0 ≤ col ∧ col < (COLUMNS : ℤ)
    · exact ⟨h.1, h.2.2.1⟩
    · rw [if_neg h] at hc
      exact absurd hc (by simp)
  have hnum : numpy_cell_read g row col = some colour := by
    rw [numpy_cell_read_eq_cellAt g row col hnn.1 hnn.2]
    exact hc
  unfold check_winner_at_location
  rw [hnum]
  simp only [hne, if_false, ite_false, List.any_eq_true]
  constructor
  · rintro ⟨d, hd, hcnt⟩
    have h4 : 4 ≤ 1 + same_colour_count g colour row col d.1 d.2 scanFuel
                  + same_colour_count g colour row col (-d.1) (-d.2) scanFuel :=
      of_decide_eq_true hcnt
    set a := same_colour_count g colour row col d.1 d.2 scanFuel with ha
    set b := same_colour_count g colour row col (-d.1) (-d.2) scanFuel with hb
    refine ⟨d, hd, ⟨min b 3, by omega⟩, ?_⟩
    intro j
    rcases lt_trichotomy ((j : ℕ) : ℤ) ((min b 3 : ℕ) : ℤ) with hlt | heq | hgt
    · -- the cell lies strictly before the placed cell: covered by the (-d) scan
      have hm1 : 1 ≤ (min b 3 : ℕ) - (j : ℕ) := by omega
      have hm2 : (min b 3 : ℕ) - (j : ℕ) ≤ b := by omega
      have := same_colour_count_sound g colour scanFuel row col (-d.1) (-d.2)
        ((min b 3 : ℕ) - (j : ℕ)) hm1 hm2
      have e1 : row + (((min b 3 : ℕ) - (j : ℕ) : ℕ) : ℤ) * -d.1
          = row + (((j : ℕ) : ℤ) - ((min b 3 : ℕ) : ℤ)) * d.1 := by
        have : (((min b 3 : ℕ) - (j : ℕ) : ℕ) : ℤ)
            = ((min b 3 : ℕ) : ℤ) - ((j : ℕ) : ℤ) := by omega
        rw [this]; ring
      have e2 : col + (((min b 3 : ℕ) - (j : ℕ) : ℕ) : ℤ) * -d.2
          = col + (((j : ℕ) : ℤ) - ((min b 3 : ℕ) : ℤ)) * d.2 := by
        have : (((min b 3 : ℕ) - (j : ℕ) : ℕ) : ℤ)
            = ((min b 3 : ℕ) : ℤ) - ((j : ℕ) : ℤ) := by omega
        rw [this]; ring
      rwa [e1, e2] at this
    · -- the placed cell itself
      simp only [heq]
      simpa using hc
    · -- strictly after the placed cell: covered by the (+d) scan
      have hm1 : 1 ≤ (j : ℕ) - (min b 3 : ℕ) := by omega
      have hm2 : (j : ℕ) - (min b 3 : ℕ) ≤ a := by
        have hj3 : (j : ℕ) ≤ 3 := by omega
        omega
      have := same_colour_count_sound g colour scanFuel row col d.1 d.2
        ((j : ℕ) - (min b 3 : ℕ)) hm1 hm2
      have e1 : row + (((j : ℕ) - (min b 3 : ℕ) : ℕ) : ℤ) * d.1
          = row + (((j : ℕ) : ℤ) - ((min b 3 : ℕ) : ℤ)) * d.1 := by
        have : (((j : ℕ) - (min b 3 : ℕ) : ℕ) : ℤ)
            = ((j : ℕ) : ℤ) - ((min b 3 : ℕ) : ℤ) := by omega
        rw [this]
      have e2 : col + (((j : ℕ) - (min b 3 : ℕ) : ℕ) : ℤ) * d.2
          = col + (((j : ℕ) : ℤ) - ((min b 3 : ℕ) : ℤ)) * d.2 := by
        have : (((j : ℕ) - (min b 3 : ℕ) : ℕ) : ℤ)
            = ((j : ℕ) : ℤ) - ((min b 3 : ℕ) : ℤ) := by omega
        rw [this]
      rwa [e1, e2] at this
  · rintro ⟨d, hd, t, hall⟩
    refine ⟨d, hd, ?_⟩
    apply decide_eq_true
    have hA : 3 - (t : ℕ) ≤ same_colour_count g colour row col d.1 d.2 scanFuel := by
      apply same_colour_count_complete g colour scanFuel row col d.1 d.2 (3 - (t : ℕ))
        (by unfold scanFuel ROWS COLUMNS; omega)
      intro j hj1 hj2
      have hjt : j + (t : ℕ) < 4 := by omega
      have := hall ⟨j + (t : ℕ), hjt⟩
      have e : ((j + (t : ℕ) : ℕ) : ℤ) - ((t : ℕ) : ℤ) = (j : ℤ) := by push_cast; ring
      simpa only [e] using this
    have hB : (t : ℕ) ≤ same_colour_count g colour row col (-d.1) (-d.2) scanFuel := by
      apply same_colour_count_complete g colour scanFuel row col (-d.1) (-d.2) (t : ℕ)
        (by unfold scanFuel ROWS COLUMNS; omega)
      intro j hj1 hj2
      have hjt : (t : ℕ) - j < 4 := by omega
      have := hall ⟨(t : ℕ) - j, hjt⟩
      have e1 : row + (((t : ℕ) - j : ℕ) : ℤ) * d.1 - (j : ℤ) * d.1
          = row + ((((t : ℕ) - j : ℕ) : ℤ) - ((t : ℕ) : ℤ)) * d.1 + ((t : ℕ) : ℤ) * d.1
            - (j : ℤ) * d.1 := by ring
      have e : (((t : ℕ) - j : ℕ) : ℤ) - ((t : ℕ) : ℤ) = -(j : ℤ) := by omega
      rw [e] at this
      have e2 : row + -(j : ℤ) * d.1 = row + (j : ℤ) * -d.1 := by ring
      have e3 : col + -(j : ℤ) * d.2 = col + (j : ℤ) * -d.2 := by ring
      rwa [e2, e3] at this
    omega

/-- The shape every real board has: 7 columns of 6 cells. -/
def well_shaped (b : ConnectFour) : Prop :=
  b.grid.length = COLUMNS ∧ ∀ col ∈ b.grid, col.length = ROWS

instance (b : ConnectFour) : Decidable (well_shaped b) := by
  unfold well_shaped
  infer_instance

theorem effective_column_lt (column : ℤ) (h : column_in_numpy_range column) :
    (effective_column column).toNat < COLUMNS := by
  unfold column_in_numpy_range at h
  unfold effective_column COLUMNS at *
  split <;> omega

/-- Decomposition of a successful `add_disc`: the column was in numpy
range, the returned grid has the disc at `(r, column)`, and the returned
winner is the moving colour when the post-move winner check fires and the
previous winner otherwise. -/
theorem add_disc_ok_decompose (b : ConnectFour) (column : ℤ) (colour : Cell)
    (b2 : ConnectFour) (r : ℕ)
    (hok : add_disc b column colour = Except.ok b2)
    (hr : placed_row b.grid column = some r) :
    column_in_numpy_range column ∧
    b2.grid = b.grid.set (effective_column column).toNat
      ((b.grid.getD (effective_column column).toNat []).set r colour) ∧
    b2.winner = (if check_winner_at_location b2.grid (r : ℤ) column
      then some colour else b.winner) := by
  by_cases hrange : column_in_numpy_range column
  · simp only [add_disc, if_pos hrange, hr] at hok
    refine ⟨hrange, ?_⟩
    by_cases hchk : check_winner_at_location
        (b.grid.set (effective_column column).toNat
          ((b.grid.getD (effective_column column).toNat []).set r colour))
        (r : ℤ) column
    · rw [if_pos hchk] at hok
      injection hok with h
      subst h
      exact ⟨rfl, by rw [if_pos hchk]⟩
    · rw [if_neg hchk] at hok
      injection hok with h
      subst h
      exact ⟨rfl, by rw [if_neg hchk]⟩
  · simp only [add_disc, if_neg hrange] at hok
    exact absurd hok (by simp)

/-- On a well-shaped board, the placed row is a real row of the target
column and after the move the placed cell holds the moving colour. -/
theorem placed_cell_colour (b : ConnectFour) (column : ℤ) (colour : Cell)
    (b2 : ConnectFour) (r : ℕ)
    (hsh : well_shaped b) (hrange : column_in_numpy_range column)
    (hr : placed_row b.grid column = some r)
    (hgrid : b2.grid = b.grid.set (effective_column column).toNat
      ((b.grid.getD (effective_column column).toNat []).set r colour)) :
    cellAt b2.grid (r : ℤ) (((effective_column column).toNat : ℕ) : ℤ) = some colour := by
  have heff : (effective_column column).toNat < COLUMNS := effective_column_lt column hrange
  have hlen : b.grid.length = COLUMNS := hsh.1
  have hcolmem : b.grid.getD (effective_column column).toNat [] ∈ b.grid := by
    rw [List.getD_eq_getElem?_getD]
    rw [List.getElem?_eq_getElem (by omega)]
    exact List.getElem_mem _
  have hcollen : (b.grid.getD (effective_column column).toNat []).length = ROWS :=
    hsh.2 _ hcolmem
  have hrlt : r < (b.grid.getD (effective_column column).toNat []).length := by
    unfold placed_row at hr
    exact (List.findIdx?_eq_some_iff_getElem.mp hr).fst
  unfold cellAt
  rw [if_pos]
  · congr 1
    have h1 : b2.grid.getD ((((effective_column column).toNat : ℕ) : ℤ)).toNat []
        = (b.grid.getD (effective_column column).toNat []).set r colour := by
      rw [hgrid]
      simp only [Int.toNat_natCast]
      rw [List.getD_eq_getElem?_getD, List.getElem?_set_self (by omega)]
      rfl
    rw [h1]
    simp only [Int.toNat_natCast]
    rw [List.getD_eq_getElem?_getD, List.getElem?_set_self (by omega)]
    rfl
  · unfold ROWS COLUMNS at *
    omega

/-- C4 amended: for a real column (0..6 — the only columns `legal_moves`
produces), `add_disc` with no previous winner sets `winner` to the moving
colour exactly when the just-placed disc lies in a run of at least 4
consecutive same-colour cells in one of the 4 line directions (counted from
the placed cell in both opposite senses, inclusive of the placed cell); a
shorter maximal run sets no winner, and the scans stop at the grid boundary
without error or wraparound.  For negative in-numpy-range columns the code
places the disc at the wrapped column but anchors the winner scan at the
raw index, so the equivalence fails there (see the counterexample). -/
theorem add_disc_winner_iff_run (b : ConnectFour) (column : ℤ) (colour : Cell)
    (b2 : ConnectFour) (r : ℕ)
    (hnn : 0 ≤ column)
    (hsh : well_shaped b) (hw : b.winner = none) (hcol : colour ≠ Cell.empty)
    (hok : add_disc b column colour = Except.ok b2)
    (hr : placed_row b.grid column = some r) :
    b2.winner = if spec_win b2.grid (r : ℤ) column colour
                then some colour else none := by
  obtain ⟨hrange, hgrid, hwin⟩ := add_disc_ok_decompose b column colour b2 r hok hr
  have heffc : (((effective_column column).toNat : ℕ) : ℤ) = column := by
    unfold effective_column
    rw [if_neg (by omega)]
    exact Int.toNat_of_nonneg hnn
  have hc := placed_cell_colour b column colour b2 r hsh hrange hr hgrid
  rw [heffc] at hc
  have hiff := check_winner_iff_spec_win b2.grid (r : ℤ) column colour hc hcol
  by_cases hs : spec_win b2.grid (r : ℤ) column colour
  · rw [if_pos hs, hwin, if_pos (hiff.mpr hs)]
  · have hchk : ¬ (check_winner_at_location b2.grid (r : ℤ) column = true) :=
      fun hh => hs (hiff.mp hh)
    rw [if_neg hs, hwin, if_neg hchk, hw]

/-- C2 amended: a successful later `add_disc` into a real column (0..6)
leaves a previously recorded winner unchanged exactly when the new disc
completes no run of ≥ 4 for the moving colour; when it does complete one,
`winner` is overwritten with the moving colour (so `winner` can be assigned
more than once — only the Orchestrator's stopping at the first winner makes
it effectively final).  Negative in-numpy-range columns anchor the winner
scan at the raw index rather than at the placed disc (see C4's
counterexample), which is part of the out-of-range misbehaviour of C3. -/
theorem add_disc_winner_change_characterised (b : ConnectFour) (column : ℤ) (colour : Cell)
    (b2 : ConnectFour) (r : ℕ)
    (hnn : 0 ≤ column)
    (hsh : well_shaped b) (hcol : colour ≠ Cell.empty)
    (hok : add_disc b column colour = Except.ok b2)
    (hr : placed_row b.grid column = some r) :
    (spec_win b2.grid (r : ℤ) column colour → b2.winner = some colour) ∧
    (¬ spec_win b2.grid (r : ℤ) column colour → b2.winner = b.winner) := by
  obtain ⟨hrange, hgrid, hwin⟩ := add_disc_ok_decompose b column colour b2 r hok hr
  have heffc : (((effective_column column).toNat : ℕ) : ℤ) = column := by
    unfold effective_column
    rw [if_neg (by omega)]
    exact Int.toNat_of_nonneg hnn
  have hc := placed_cell_colour b column colour b2 r hsh hrange hr hgrid
  rw [heffc] at hc
  have hiff := check_winner_iff_spec_win b2.grid (r : ℤ) column colour hc hcol
  constructor
  · intro hs
    rw [hwin, if_pos (hiff.mpr hs)]
  · intro hs
    have hchk : ¬ (check_winner_at_location b2.grid (r : ℤ) column = true) :=
      fun hh => hs (hiff.mp hh)
    rw [hwin, if_neg hchk]

/-- The board after the first move `add_disc(0, WHITE)` on a fresh board. -/
def one_disc_board : ConnectFour :=
  ⟨[[Cell.white, Cell.empty, Cell.empty, Cell.empty, Cell.empty, Cell.empty],
    [Cell.empty, Cell.empty, Cell.empty, Cell.empty, Cell.empty, Cell.empty],
    [Cell.empty, Cell.empty, Cell.empty, Cell.empty, Cell.empty, Cell.empty],
    [Cell.empty, Cell.empty, Cell.empty, Cell.empty, Cell.empty, Cell.empty],
    [Cell.empty, Cell.empty, Cell.empty, Cell.empty, Cell.empty, Cell.empty],
    [Cell.empty, Cell.empty, Cell.empty, Cell.empty, Cell.empty, Cell.empty],
    [Cell.empty, Cell.empty, Cell.empty, Cell.empty, Cell.empty, Cell.empty]], none⟩

/-- Witness for C4 at a concrete input: the very first disc placed on a
fresh board sets the winner according to the run predicate (which here is
false, so no winner). -/
theorem add_disc_winner_iff_run_witness :
    one_disc_board.winner =
      if spec_win one_disc_board.grid ((0 : ℕ) : ℤ) (0 : ℤ) Cell.white
      then some Cell.white else none :=
  add_disc_winner_iff_run init_board 0 Cell.white one_disc_board 0
    (by decide) (by decide) rfl (by decide) (by decide) (by decide)

/-- A board with three White discs at the bottom of column 6 and no
recorded winner. -/
def pre_wrap_board : ConnectFour :=
  ⟨[[Cell.empty, Cell.empty, Cell.empty, Cell.empty, Cell.empty, Cell.empty],
    [Cell.empty, Cell.empty, Cell.empty, Cell.empty, Cell.empty, Cell.empty],
    [Cell.empty, Cell.empty, Cell.empty, Cell.empty, Cell.empty, Cell.empty],
    [Cell.empty, Cell.empty, Cell.empty, Cell.empty, Cell.empty, Cell.empty],
    [Cell.empty, Cell.empty, Cell.empty, Cell.empty, Cell.empty, Cell.empty],
    [Cell.empty, Cell.empty, Cell.empty, Cell.empty, Cell.empty, Cell.empty],
    [Cell.white, Cell.white, Cell.white, Cell.empty, Cell.empty, Cell.empty]], none⟩

/-- `pre_wrap_board` after `add_disc(-1, WHITE)`: the wrapped placement
completes a vertical four in column 6, yet no winner is recorded. -/
def post_wrap_board : ConnectFour :=
  ⟨[[Cell.empty, Cell.empty, Cell.empty, Cell.empty, Cell.empty, Cell.empty],
    [Cell.empty, Cell.empty, Cell.empty, Cell.empty, Cell.empty, Cell.empty],
    [Cell.empty, Cell.empty, Cell.empty, Cell.empty, Cell.empty, Cell.empty],
    [Cell.empty, Cell.empty, Cell.empty, Cell.empty, Cell.empty, Cell.empty],
    [Cell.empty, Cell.empty, Cell.empty, Cell.empty, Cell.empty, Cell.empty],
    [Cell.empty, Cell.empty, Cell.empty, Cell.empty, Cell.empty, Cell.empty],
    [Cell.white, Cell.white, Cell.white, Cell.white, Cell.empty, Cell.empty]], none⟩

/-- C4 counterexample: `add_disc(-1, WHITE)` places the fourth White disc
at row 3 of column 6, so the just-placed disc lies in a run of 4
(`spec_win` holds at the placed cell), yet `winner` stays unset — the
winner scan is anchored at the raw index -1, where the vertical scan
breaks at `y_pos < 0` immediately.  `add_disc` therefore does not set the
winner exactly when the placed disc lies in a run. -/
theorem run_completed_without_winner_counterexample :
    add_disc pre_wrap_board (-1) Cell.white = Except.ok post_wrap_board ∧
    placed_row pre_wrap_board.grid (-1) = some 3 ∧
    spec_win post_wrap_board.grid ((3 : ℕ) : ℤ) ((6 : ℕ) : ℤ) Cell.white ∧
    post_wrap_board.winner = none := by
  refine ⟨by decide, by decide, by decide, rfl⟩

/-- The board reached by `white_wins_moves`: White already won vertically in
column 0; Red has three discs in column 1. -/
def white_won_board : ConnectFour :=
  ⟨[[Cell.white, Cell.white, Cell.white, Cell.white, Cell.empty, Cell.empty],
    [Cell.red, Cell.red, Cell.red, Cell.empty, Cell.empty, Cell.empty],
    [Cell.empty, Cell.empty, Cell.empty, Cell.empty, Cell.empty, Cell.empty],
    [Cell.empty, Cell.empty, Cell.empty, Cell.empty, Cell.empty, Cell.empty],
    [Cell.empty, Cell.empty, Cell.empty, Cell.empty, Cell.empty, Cell.empty],
    [Cell.empty, Cell.empty, Cell.empty, Cell.empty, Cell.empty, Cell.empty],
    [Cell.empty, Cell.empty, Cell.empty, Cell.empty, Cell.empty, Cell.empty]],
   some Cell.white⟩

/-- `white_won_board` after Red completes its vertical four in column 1:
the winner field has been overwritten to Red. -/
def red_overwrote_board : ConnectFour :=
  ⟨[[Cell.white, Cell.white, Cell.white, Cell.white, Cell.empty, Cell.empty],
    [Cell.red, Cell.red, Cell.red, Cell.red, Cell.empty, Cell.empty],
    [Cell.empty, Cell.empty, Cell.empty, Cell.empty, Cell.empty, Cell.empty],
    [Cell.empty, Cell.empty, Cell.empty, Cell.empty, Cell.empty, Cell.empty],
    [Cell.empty, Cell.empty, Cell.empty, Cell.empty, Cell.empty, Cell.empty],
    [Cell.empty, Cell.empty, Cell.empty, Cell.empty, Cell.empty, Cell.empty],
    [Cell.empty, Cell.empty, Cell.empty, Cell.empty, Cell.empty, Cell.empty]],
   some Cell.red⟩

/-- Witness for the amended C2 at a concrete input: Red's move into column
1 on the board where White already won. -/
theorem add_disc_winner_change_characterised_witness :
    (spec_win red_overwrote_board.grid ((3 : ℕ) : ℤ) (1 : ℤ) Cell.red →
      red_overwrote_board.winner = some Cell.red) ∧
    (¬ spec_win red_overwrote_board.grid ((3 : ℕ) : ℤ) (1 : ℤ) Cell.red →
      red_overwrote_board.winner = white_won_board.winner) :=
  add_disc_winner_change_characterised white_won_board 1 Cell.red red_overwrote_board 3
    (by decide) (by decide) (by decide) (by decide) (by decide)

/-! ## Reachable boards, gravity invariant, and identifier consistency (C1) -/

/-- Boards reachable from a fresh `ConnectFour()` by successful `add_disc`
calls with a real disc colour. -/
inductive Reachable : ConnectFour → Prop where
  | init : Reachable init_board
  | step (b b2 : ConnectFour) (column : ℤ) (colour : Cell) :
      Reachable b → (colour = Cell.white ∨ colour = Cell.red) →
      add_disc b column colour = Except.ok b2 → Reachable b2

/-- Gravity shape of one column: a filled prefix (no EMPTY cells) followed
by EMPTY cells up to height `ROWS`. -/
def gravity_column (col : List Cell) : Prop :=
  ∃ fp : List Cell, (∀ c ∈ fp, c ≠ Cell.empty) ∧ fp.length ≤ ROWS ∧
    col = fp ++ List.replicate (ROWS - fp.length) Cell.empty

/-- The invariant maintained by play: 7 gravity-shaped columns. -/
def board_invariant (b : ConnectFour) : Prop :=
  b.grid.length = COLUMNS ∧ ∀ col ∈ b.grid, gravity_column col

theorem gravity_column_length (col : List Cell) (h : gravity_column col) :
    col.length = ROWS := by
  obtain ⟨fp, _, hle, hcol⟩ := h
  rw [hcol]
  simp
  omega

theorem board_invariant_well_shaped (b : ConnectFour) (h : board_invariant b) :
    well_shaped b :=
  ⟨h.1, fun col hcol => gravity_column_length col (h.2 col hcol)⟩

/-- `findIdx?` for the EMPTY search on a filled prefix followed by an EMPTY
cell finds exactly the prefix length. -/
theorem findIdx?_empty_after_filled_from (fp : List Cell) (rest : List Cell)
    (hfp : ∀ c ∈ fp, c ≠ Cell.empty) :
    ∀ i : ℕ, (fp ++ Cell.empty :: rest).findIdx? (fun c => c = Cell.empty) i
      = some (i + fp.length) := by
  induction fp with
  | nil => intro i; simp [List.findIdx?_cons]
  | cons c fp0 ih =>
    intro i
    have hc : c ≠ Cell.empty := hfp c (by simp)
    have ih0 := ih (fun x hx => hfp x (by simp [hx])) (i + 1)
    rw [List.cons_append, List.findIdx?_cons, if_neg (by simp [hc]), ih0]
    congr 1
    simp
    omega

theorem findIdx?_empty_after_filled (fp : List Cell) (rest : List Cell)
    (hfp : ∀ c ∈ fp, c ≠ Cell.empty) :
    (fp ++ Cell.empty :: rest).findIdx? (fun c => c = Cell.empty) = some fp.length := by
  have := findIdx?_empty_after_filled_from fp rest hfp 0
  simpa using this

/-- `findIdx?` for EMPTY on a fully filled column finds nothing. -/
theorem findIdx?_empty_filled_none_from (fp : List Cell)
    (hfp : ∀ c ∈ fp, c ≠ Cell.empty) :
    ∀ i : ℕ, fp.findIdx? (fun c => c = Cell.empty) i = none := by
  induction fp with
  | nil => intro i; simp
  | cons c fp0 ih =>
    intro i
    have hc : c ≠ Cell.empty := hfp c (by simp)
    have ih0 := ih (fun x hx => hfp x (by simp [hx])) (i + 1)
    rw [List.findIdx?_cons, if_neg (by simp [hc]), ih0]

theorem findIdx?_empty_filled_none (fp : List Cell)
    (hfp : ∀ c ∈ fp, c ≠ Cell.empty) :
    fp.findIdx? (fun c => c = Cell.empty) = none :=
  findIdx?_empty_filled_none_from fp hfp 0

/-- Splitting `column_identifier_aux` at a filled prefix. -/
theorem column_identifier_aux_append (fp : List Cell) (hfp : ∀ c ∈ fp, c ≠ Cell.empty) :
    ∀ (l : List Cell) (mult : ℕ),
      column_identifier_aux (fp ++ l) mult
        = column_identifier_aux fp mult + 3 ^ fp.length * mult * column_identifier_aux l 1 := by
  induction fp with
  | nil =>
    intro l mult
    simp only [List.nil_append, column_identifier_aux, List.length_nil, pow_zero, one_mul]
    rw [column_identifier_aux_mult l mult]
    ring
  | cons c fp0 ih =>
    intro l mult
    have hc : c ≠ Cell.empty := hfp c (by simp)
    have ih0 := ih (fun x hx => hfp x (by simp [hx])) l (3 * mult)
    cases c with
    | empty => exact absurd rfl hc
    | white =>
      simp only [List.cons_append, column_identifier_aux, List.length_cons, List.append_eq]
      rw [ih0]
      ring
    | red =>
      simp only [List.cons_append, column_identifier_aux, List.length_cons, List.append_eq]
      rw [ih0]
      ring

/-- A column of EMPTY cells contributes nothing. -/
theorem column_identifier_aux_replicate_empty (k : ℕ) (mult : ℕ) :
    column_identifier_aux (List.replicate k Cell.empty) mult = 0 := by
  cases k with
  | zero => simp [column_identifier_aux]
  | succ k0 => simp [List.replicate_succ, column_identifier_aux]

/-- `Reachable` boards satisfy the gravity invariant. -/
theorem reachable_board_invariant (b : ConnectFour) (h : Reachable b) :
    board_invariant b := by
  induction h with
  | init =>
    constructor
    · simp [init_board, empty_grid]
    · intro col hcol
      have hrep : col = List.replicate ROWS Cell.empty :=
        List.eq_of_mem_replicate (by simpa [init_board, empty_grid] using hcol)
      exact ⟨[], by simp, by simp, by simpa using hrep⟩
  | step b b2 column colour hreach hcolour hok ih =>
    have hr : ∃ r, placed_row b.grid column = some r := by
      by_cases hrange : column_in_numpy_range column
      · cases hfind : placed_row b.grid column with
        | none => simp [add_disc, if_pos hrange, hfind] at hok
        | some r => exact ⟨r, rfl⟩
      · simp [add_disc, if_neg hrange] at hok
    obtain ⟨r, hr⟩ := hr
    obtain ⟨hrange, hgrid, _⟩ := add_disc_ok_decompose b column colour b2 r hok hr
    have heff : (effective_column column).toNat < COLUMNS := effective_column_lt column hrange
    have hbl : b.grid.length = COLUMNS := ih.1
    constructor
    · rw [hgrid, List.length_set]
      exact hbl
    · intro col hcol
      rw [hgrid] at hcol
      rcases List.mem_or_eq_of_mem_set hcol with hold | hnew
      · exact ih.2 col hold
      · have hmem : b.grid.getD (effective_column column).toNat [] ∈ b.grid := by
          rw [List.getD_eq_getElem?_getD, List.getElem?_eq_getElem (by omega)]
          exact List.getElem_mem _
        obtain ⟨fp, hfp, hle, hcolshape⟩ := ih.2 _ hmem
        have hr0 : placed_row b.grid column
            = (b.grid.getD (effective_column column).toNat []).findIdx?
                (fun c => c = Cell.empty) := rfl
        have hfull : fp.length < ROWS := by
          by_contra hcontra
          have hfl : fp.length = ROWS := by omega
          rw [hr0, hcolshape, hfl, Nat.sub_self, List.replicate_zero, List.append_nil,
            findIdx?_empty_filled_none fp hfp] at hr
          exact Option.noConfusion hr
        have hsplit : List.replicate (ROWS - fp.length) Cell.empty
            = Cell.empty :: List.replicate (ROWS - fp.length - 1) Cell.empty := by
          conv_lhs => rw [show ROWS - fp.length = (ROWS - fp.length - 1) + 1 from by omega]
          rw [List.replicate_succ]
        have hreq : r = fp.length := by
          rw [hr0, hcolshape, hsplit, findIdx?_empty_after_filled fp _ hfp] at hr
          exact (Option.some.injEq _ _).mp hr.symm
        have hnewcol : col = fp ++ colour :: List.replicate (ROWS - fp.length - 1) Cell.empty := by
          rw [hnew, hcolshape, hsplit, hreq,
            List.set_append_right fp.length colour (le_refl _), Nat.sub_self]
          rfl
        have hcne : colour ≠ Cell.empty := by
          rcases hcolour with hco | hco <;> rw [hco] <;> simp
        refine ⟨fp ++ [colour], ?_, ?_, ?_⟩
        · intro c hc
          rcases List.mem_append.mp hc with hcc | hcc
          · exact hfp c hcc
          · rw [List.mem_singleton.mp hcc]; exact hcne
        · simp only [List.length_append, List.length_singleton]
          omega
        · rw [hnewcol]
          have hlen2 : ROWS - (fp ++ [colour]).length = ROWS - fp.length - 1 := by
            simp only [List.length_append, List.length_singleton]
            omega
          rw [hlen2, List.append_assoc, List.singleton_append]

/-- A successful `add_disc` exists whenever the placed row exists, and its
grid is the expected single-cell update. -/
theorem add_disc_ok_exists (b : ConnectFour) (column : ℤ) (colour : Cell)
    (hrange : column_in_numpy_range column) (r : ℕ)
    (hr : placed_row b.grid column = some r) :
    ∃ b2, add_disc b column colour = Except.ok b2 ∧
      b2.grid = b.grid.set (effective_column column).toNat
        ((b.grid.getD (effective_column column).toNat []).set r colour) := by
  simp only [add_disc, if_pos hrange, hr]
  by_cases hchk : check_winner_at_location
      (b.grid.set (effective_column column).toNat
        ((b.grid.getD (effective_column column).toNat []).set r colour))
      (r : ℤ) column = true
  · exact ⟨_, by rw [if_pos hchk], rfl⟩
  · exact ⟨_, by rw [if_neg hchk], rfl⟩

/-- C1: on every reachable board, for every legal `(column, colour)` move,
`next_state_identifier` succeeds and returns exactly the identifier that
`state_identifier` returns on the board produced by actually performing the
move with `add_disc`; `next_state_identifier` itself is a pure function of
the board (the embedding of the Python method, which never writes to
`self._grid`), so the call leaves the board unchanged. -/
theorem next_state_identifier_consistent (b : ConnectFour) (hreach : Reachable b)
    (column : ℕ) (colour : Cell)
    (hcolour : colour = Cell.white ∨ colour = Cell.red)
    (hlegal : column ∈ legal_moves b) :
    ∃ b2, add_disc b (column : ℤ) colour = Except.ok b2 ∧
      next_state_identifier b (column : ℤ) colour = Except.ok (state_identifier b2) := by
  have hinv := reachable_board_invariant b hreach
  have hROWS : ROWS = 6 := rfl
  have hCOLS : COLUMNS = 7 := rfl
  have hbl : b.grid.length = COLUMNS := hinv.1
  have hcollt : column < COLUMNS := by
    unfold legal_moves at hlegal
    exact List.mem_range.mp (List.mem_filter.mp hlegal).1
  have htop : (b.grid.getD column []).getD (ROWS - 1) Cell.empty = Cell.empty :=
    of_decide_eq_true (List.mem_filter.mp hlegal).2
  have heffeq : (effective_column (column : ℤ)).toNat = column := by
    unfold effective_column
    rw [if_neg (by omega)]
    exact Int.toNat_natCast column
  have hrange : column_in_numpy_range (column : ℤ) := by
    have h7 : column < 7 := hcollt
    unfold column_in_numpy_range COLUMNS
    omega
  have hmem : b.grid.getD column [] ∈ b.grid := by
    rw [List.getD_eq_getElem?_getD, List.getElem?_eq_getElem (by omega)]
    exact List.getElem_mem _
  obtain ⟨fp, hfp, hle, hshape⟩ := hinv.2 _ hmem
  have hfull : fp.length < ROWS := by
    by_contra hcontra
    have hfl : fp.length = ROWS := by omega
    rw [hshape, hfl, Nat.sub_self, List.replicate_zero, List.append_nil] at htop
    have h5 : ROWS - 1 < fp.length := by omega
    rw [List.getD_eq_getElem?_getD, List.getElem?_eq_getElem h5] at htop
    exact hfp _ (List.getElem_mem _) (by simpa using htop)
  have hsplit : List.replicate (ROWS - fp.length) Cell.empty
      = Cell.empty :: List.replicate (ROWS - fp.length - 1) Cell.empty := by
    conv_lhs => rw [show ROWS - fp.length = (ROWS - fp.length - 1) + 1 from by omega]
    rw [List.replicate_succ]
  have hrow : placed_row b.grid (column : ℤ) = some fp.length := by
    unfold placed_row
    rw [heffeq, hshape, hsplit]
    exact findIdx?_empty_after_filled fp _ hfp
  obtain ⟨b2, hok, hgrid⟩ := add_disc_ok_exists b (column : ℤ) colour hrange fp.length hrow
  rw [heffeq] at hgrid
  refine ⟨b2, hok, ?_⟩
  -- both sides are the old identifier tuple with entry `column` updated
  have hnewcol : (b.grid.getD column []).set fp.length colour
      = fp ++ colour :: List.replicate (ROWS - fp.length - 1) Cell.empty := by
    rw [hshape, hsplit, List.set_append_right fp.length colour (le_refl _), Nat.sub_self]
    rfl
  have hstate2 : state_identifier b2 = (state_identifier b).set column
      (column_identifier ((b.grid.getD column []).set fp.length colour)) := by
    rw [show state_identifier b2 = b2.grid.map column_identifier from rfl, hgrid,
      List.map_set]
    rfl
  have hgetD : (state_identifier b).getD column 0
      = column_identifier (b.grid.getD column []) := by
    unfold state_identifier
    rw [List.getD_eq_getElem?_getD, List.getElem?_map,
      List.getElem?_eq_getElem (by omega)]
    rw [List.getD_eq_getElem?_getD, List.getElem?_eq_getElem (by omega)]
    rfl
  have hold : column_identifier (b.grid.getD column []) = column_identifier_aux fp 1 := by
    unfold column_identifier
    rw [hshape, column_identifier_aux_append fp hfp,
      column_identifier_aux_replicate_empty]
    ring
  have hnewid : column_identifier ((b.grid.getD column []).set fp.length colour)
      = column_identifier_aux fp 1 + code_digit colour * 3 ^ fp.length := by
    rw [hnewcol]
    unfold column_identifier
    rw [column_identifier_aux_append fp hfp]
    rcases hcolour with hco | hco <;> rw [hco] <;>
      simp only [column_identifier_aux, column_identifier_aux_replicate_empty, code_digit] <;>
      ring
  rcases hcolour with hco | hco
  · subst hco
    simp only [next_state_identifier, if_pos hrange, hrow, heffeq]
    rw [hstate2, hgetD, hold, hnewid]
    simp [code_digit]
  · subst hco
    simp only [next_state_identifier, if_pos hrange, hrow, heffeq]
    rw [hstate2, hgetD, hold, hnewid]
    simp [code_digit]

/-- Witness for C1 at a concrete input: the first move of a game. -/
theorem next_state_identifier_consistent_witness :
    ∃ b2, add_disc init_board ((0 : ℕ) : ℤ) Cell.white = Except.ok b2 ∧
      next_state_identifier init_board ((0 : ℕ) : ℤ) Cell.white
        = Except.ok (state_identifier b2) :=
  next_state_identifier_consistent init_board Reachable.init 0 Cell.white
    (Or.inl rfl) (by decide)

/-! ## `connectfourutils.count_open_positions` (C9) -/

/-- A numpy matrix of cells, row-major (list of rows), arbitrary shape. -/
abbrev Mat : Type := List (List Cell)

/-- Read `game_grid[i, j]`.  `count_open_positions` computes its reads
through the flattened array as `flat[start + k * jump]`; for every window
that passes its boundary pre-check those flat indices equal
`(r + k*dx) * num_cols + (c + k*dy)` with both coordinates inside the
matrix, so the read below is the same cell. -/
def matCell (g : Mat) (i j : ℤ) : Cell :=
  if 0 ≤ i ∧ 0 ≤ j then (g.getD i.toNat []).getD j.toNat Cell.empty else Cell.empty

/-- The opposing colour as computed at the top of `count_open_positions`:
WHITE if the player is RED, else RED. -/
def util_other_colour (player_colour : Cell) : Cell :=
  if player_colour = Cell.red then Cell.white else Cell.red

/-- The 4 entries of the window starting at `(r, c)` along direction `d`. -/
def window_entries (g : Mat) (r c : ℕ) (d : ℤ × ℤ) : List Cell :=
  [(0 : ℤ), 1, 2, 3].map fun j => matCell g ((r : ℤ) + j * d.1) ((c : ℤ) + j * d.2)

/-- The code's boundary pre-check ("Do the four jumps exceed the grid
boundaries?"): the window is skipped when it holds. -/
def window_skip (numRows numCols : ℕ) (r c : ℕ) (d : ℤ × ℤ) : Prop :=
  (numRows : ℤ) ≤ (r : ℤ) + 3 * d.1 ∨ (numCols : ℤ) ≤ (c : ℤ) + 3 * d.2 ∨
    (c : ℤ) + 3 * d.2 < 0

instance (numRows numCols r c : ℕ) (d : ℤ × ℤ) :
    Decidable (window_skip numRows numCols r c d) := by
  unfold window_skip
  infer_instance

/-- The bucket a window falls into: how many of its 4 cells hold the
player's colour (`_count_element(entries, player_colour)`). -/
def window_bucket (g : Mat) (player_colour : Cell) (r c : ℕ) (d : ℤ × ℤ) : ℕ :=
  (window_entries g r c d).countP fun x => x = player_colour

/-- One iteration of the triple loop body of `count_open_positions`.
numpy's `counts` array holds floats, but every value it ever holds is one
of the integral counts below, so the buckets are embedded as naturals. -/
def cop_step (g : Mat) (player_colour oc : Cell) (numRows numCols : ℕ)
    (counts : List ℕ) (t : ℕ × ℕ × ℤ × ℤ) : List ℕ :=
  if window_skip numRows numCols t.1 t.2.1 (t.2.2.1, t.2.2.2) then counts
  else if oc ∈ window_entries g t.1 t.2.1 (t.2.2.1, t.2.2.2) then counts
  else
    let k := window_bucket g player_colour t.1 t.2.1 (t.2.2.1, t.2.2.2)
    counts.set k (counts.getD k 0 + 1)

/-- The loop's iteration space: `(row, col, direction)` for
`row in range(num_rows)`, `col in range(num_cols)`, the 4 directions. -/
def window_triples (numRows numCols : ℕ) : List (ℕ × ℕ × ℤ × ℤ) :=
  (List.range numRows).flatMap fun r =>
    (List.range numCols).flatMap fun c =>
      directions.map fun d => (r, c, d.1, d.2)

/-- `count_open_positions(game_grid, player_colour)`: 5 buckets, one per
possible count of the player's colour in an open window. -/
def count_open_positions (g : Mat) (player_colour : Cell) : List ℕ :=
  (window_triples g.length (g.headD []).length).foldl
    (cop_step g player_colour (util_other_colour player_colour) g.length (g.headD []).length)
    [0, 0, 0, 0, 0]

/-- Whether the loop counts window `t` into bucket `k`: it passes the
boundary check, holds no opposing disc, and holds exactly `k` player
discs. -/
def window_counted (g : Mat) (player_colour oc : Cell) (numRows numCols : ℕ) (k : ℕ)
    (t : ℕ × ℕ × ℤ × ℤ) : Prop :=
  ¬ window_skip numRows numCols t.1 t.2.1 (t.2.2.1, t.2.2.2) ∧
  oc ∉ window_entries g t.1 t.2.1 (t.2.2.1, t.2.2.2) ∧
  window_bucket g player_colour t.1 t.2.1 (t.2.2.1, t.2.2.2) = k

instance (g : Mat) (player_colour oc : Cell) (numRows numCols k : ℕ)
    (t : ℕ × ℕ × ℤ × ℤ) :
    Decidable (window_counted g player_colour oc numRows numCols k t) := by
  unfold window_counted
  infer_instance

theorem cop_step_length (g : Mat) (player_colour oc : Cell) (numRows numCols : ℕ)
    (counts : List ℕ) (t : ℕ × ℕ × ℤ × ℤ) :
    (cop_step g player_colour oc numRows numCols counts t).length = counts.length := by
  unfold cop_step
  split
  · rfl
  · split
    · rfl
    · simp

theorem window_bucket_lt (g : Mat) (player_colour : Cell) (r c : ℕ) (d : ℤ × ℤ) :
    window_bucket g player_colour r c d < 5 := by
  have h : (window_entries g r c d).countP (fun x => decide (x = player_colour))
      ≤ (window_entries g r c d).length := List.countP_le_length _
  have hl : (window_entries g r c d).length = 4 := by
    simp [window_entries]
  unfold window_bucket
  omega

/-- The fold over the windows counts, in each bucket `k`, exactly the
windows the loop files under `k`. -/
theorem foldl_cop_step_count (g : Mat) (player_colour oc : Cell) (numRows numCols : ℕ) :
    ∀ (ts : List (ℕ × ℕ × ℤ × ℤ)) (counts : List ℕ), counts.length = 5 →
      ∀ k : ℕ, k < 5 →
      (ts.foldl (cop_step g player_colour oc numRows numCols) counts).getD k 0
        = counts.getD k 0
          + (ts.countP fun t => decide (window_counted g player_colour oc numRows numCols k t)) := by
  intro ts
  induction ts with
  | nil => intro counts hlen k hk; simp
  | cons t ts0 ih =>
    intro counts hlen k hk
    rw [List.foldl_cons, List.countP_cons]
    have hlen2 : (cop_step g player_colour oc numRows numCols counts t).length = 5 := by
      rw [cop_step_length]; exact hlen
    rw [ih _ hlen2 k hk]
    have hstep : (cop_step g player_colour oc numRows numCols counts t).getD k 0
        = counts.getD k 0
          + (if window_counted g player_colour oc numRows numCols k t then 1 else 0) := by
      unfold cop_step
      by_cases hskip : window_skip numRows numCols t.1 t.2.1 (t.2.2.1, t.2.2.2)
      · rw [if_pos hskip, if_neg (by unfold window_counted; tauto)]
        ring
      · rw [if_neg hskip]
        by_cases hoc : oc ∈ window_entries g t.1 t.2.1 (t.2.2.1, t.2.2.2)
        · rw [if_pos hoc, if_neg (by unfold window_counted; tauto)]
          ring
        · rw [if_neg hoc]
          by_cases hbk : window_bucket g player_colour t.1 t.2.1 (t.2.2.1, t.2.2.2) = k
          · rw [if_pos (by unfold window_counted; tauto)]
            rw [hbk, List.getD_eq_getElem?_getD, List.getElem?_set_self (by omega),
              Option.getD_some, List.getD_eq_getElem?_getD]
          · rw [if_neg (by unfold window_counted; tauto)]
            rw [List.getD_eq_getElem?_getD, List.getElem?_set_ne (by omega),
              List.getD_eq_getElem?_getD]
            ring
    rw [hstep]
    by_cases hcnt : window_counted g player_colour oc numRows numCols k t
    · rw [if_pos hcnt, if_pos (by exact decide_eq_true hcnt)]
      ring
    · rw [if_neg hcnt, if_neg (by simpa using hcnt)]
      ring

/-- The claim's side condition for a window: all 4 of its cells lie inside
the `numRows × numCols` grid. -/
def window_in_grid (numRows numCols : ℕ) (r c : ℕ) (d : ℤ × ℤ) : Prop :=
  ∀ j : Fin 4,
    0 ≤ (r : ℤ) + ((j : ℕ) : ℤ) * d.1 ∧ (r : ℤ) + ((j : ℕ) : ℤ) * d.1 < (numRows : ℤ) ∧
    0 ≤ (c : ℤ) + ((j : ℕ) : ℤ) * d.2 ∧ (c : ℤ) + ((j : ℕ) : ℤ) * d.2 < (numCols : ℤ)

instance (numRows numCols r c : ℕ) (d : ℤ × ℤ) :
    Decidable (window_in_grid numRows numCols r c d) := by
  unfold window_in_grid
  infer_instance

/-- The claim's classification of a counted window: it lies entirely within
the grid, holds no opposing disc, and holds exactly `k` player discs. -/
def claim_open_window (g : Mat) (player_colour : Cell) (k : ℕ) (t : ℕ × ℕ × ℤ × ℤ) : Prop :=
  window_in_grid g.length (g.headD []).length t.1 t.2.1 (t.2.2.1, t.2.2.2) ∧
  util_other_colour player_colour ∉ window_entries g t.1 t.2.1 (t.2.2.1, t.2.2.2) ∧
  (window_entries g t.1 t.2.1 (t.2.2.1, t.2.2.2)).countP (fun x => x = player_colour) = k

instance (g : Mat) (player_colour : Cell) (k : ℕ) (t : ℕ × ℕ × ℤ × ℤ) :
    Decidable (claim_open_window g player_colour k t) := by
  unfold claim_open_window
  infer_instance

theorem mem_window_triples (numRows numCols : ℕ) (r c : ℕ) (dx dy : ℤ) :
    (r, c, dx, dy) ∈ window_triples numRows numCols ↔
      r < numRows ∧ c < numCols ∧ (dx, dy) ∈ directions := by
  simp only [window_triples, List.mem_flatMap, List.mem_map, List.mem_range]
  constructor
  · rintro ⟨r0, hr0, c0, hc0, d0, hd0, heq⟩
    simp only [Prod.mk.injEq] at heq
    obtain ⟨h1, h2, h3, h4⟩ := heq
    subst h1; subst h2; subst h3; subst h4
    exact ⟨hr0, hc0, by simpa using hd0⟩
  · rintro ⟨h1, h2, h3⟩
    exact ⟨r, h1, c, h2, (dx, dy), h3, rfl⟩

/-- For a window rooted inside the grid, the code's 3-condition boundary
pre-check (which tests only the far endpoint, and no lower row bound since
every direction has non-negative row step) is equivalent to the claim's
"window entirely within the grid". -/
theorem not_window_skip_iff_in_grid (numRows numCols : ℕ) (r c : ℕ) (dx dy : ℤ)
    (hr : r < numRows) (hc : c < numCols) (hd : (dx, dy) ∈ directions) :
    ¬ window_skip numRows numCols r c (dx, dy) ↔
      window_in_grid numRows numCols r c (dx, dy) := by
  have hd4 : (dx = 1 ∧ dy = 0) ∨ (dx = 0 ∧ dy = 1) ∨ (dx = 1 ∧ dy = 1) ∨
      (dx = 1 ∧ dy = -1) := by
    simpa [directions, Prod.mk.injEq] using hd
  unfold window_skip window_in_grid
  rcases hd4 with ⟨rfl, rfl⟩ | ⟨rfl, rfl⟩ | ⟨rfl, rfl⟩ | ⟨rfl, rfl⟩ <;>
    (constructor
     · intro h j
       push_neg at h
       fin_cases j <;> simp <;> omega
     · intro h
       have h3 := h ⟨3, by omega⟩
       simp at h3
       omega)

/-- C9: `count_open_positions` returns the 5-bucket counts in which, for
every 4-cell window `(row, col, direction)` lying entirely within the grid,
the window is counted in bucket `k` iff it holds exactly `k` cells of the
player's colour and no cell of the opposing colour (windows holding an
opposing cell are counted nowhere); and on an empty 4×4 grid the result is
`[10, 0, 0, 0, 0]`. -/
theorem count_open_positions_spec (g : Mat) (player_colour : Cell) :
    (∀ k : ℕ, k < 5 →
      (count_open_positions g player_colour).getD k 0
        = ((window_triples g.length (g.headD []).length).countP fun t =>
              decide (claim_open_window g player_colour k t))) ∧
    count_open_positions (List.replicate 4 (List.replicate 4 Cell.empty)) Cell.white
      = [10, 0, 0, 0, 0] := by
  constructor
  · intro k hk
    unfold count_open_positions
    rw [foldl_cop_step_count g player_colour (util_other_colour player_colour)
      g.length (g.headD []).length _ [0, 0, 0, 0, 0] (by simp) k hk]
    have hzero : ([0, 0, 0, 0, 0] : List ℕ).getD k 0 = 0 := by
      interval_cases k <;> rfl
    rw [hzero, zero_add]
    apply List.countP_congr
    intro t ht
    rcases t with ⟨r, c, dx, dy⟩
    obtain ⟨hr, hc, hd⟩ := (mem_window_triples _ _ r c dx dy).mp ht
    simp only [decide_eq_true_eq]
    unfold window_counted claim_open_window
    rw [show window_bucket g player_colour r c (dx, dy)
        = (window_entries g r c (dx, dy)).countP (fun x => x = player_colour) from rfl]
    rw [not_window_skip_iff_in_grid g.length (g.headD []).length r c dx dy hr hc hd]
  · decide

/-- The empty 4×4 matrix of the repository's own `count_open_positions`
test. -/
def empty4_mat : Mat := List.replicate 4 (List.replicate 4 Cell.empty)

/-- Witness for C9 at a concrete input: bucket 0 of the empty 4×4 grid. -/
theorem count_open_positions_spec_witness :
    (count_open_positions empty4_mat Cell.white).getD 0 0
      = ((window_triples empty4_mat.length (empty4_mat.headD []).length).countP fun t =>
          decide (claim_open_window empty4_mat Cell.white 0 t)) :=
  (count_open_positions_spec empty4_mat Cell.white).1 0 (by omega)

/-! ## `connectfourplayers.py`: the afterstate players (C7, C8, C10) -/

/-- Elementwise vector sum (numpy `+` on equal-length 1-d arrays). -/
def vec_add (v w : List ℚ) : List ℚ := List.zipWith (· + ·) v w

/-- Scalar times vector (numpy scalar `*` array). -/
def vec_smul (a : ℚ) (v : List ℚ) : List ℚ := v.map fun x => a * x

/-- Elementwise vector difference. -/
def vec_sub (v w : List ℚ) : List ℚ := List.zipWith (· - ·) v w

/-- `np.dot` of two 1-d arrays. -/
def dotprod (v w : List ℚ) : ℚ := (List.zipWith (· * ·) v w).sum

/-- The natural-number bucket counts viewed as the rationals numpy holds. -/
def nat_cast_list (v : List ℕ) : List ℚ := v.map fun (n : ℕ) => (n : ℚ)

/-- `SimpleFeaturePlayer._features`: buckets 1..4 of the player's
opportunity counts followed by buckets 1..4 of the opponent's (the counts
are numpy floats; here naturals cast to ℚ). -/
def simple_features (player_colour oc : Cell) (m : Mat) : List ℚ :=
  nat_cast_list ((count_open_positions m player_colour).drop 1)
    ++ nat_cast_list ((count_open_positions m oc).drop 1)

/-- The normalisation vector `np.array([0.05, 0.2, 0.8, 1])` of
`AdvancedFeaturePlayer._features`. -/
def feature_multiplier : List ℚ := [1 / 20, 1 / 5, 4 / 5, 1]

/-- `AdvancedFeaturePlayer._features`: the same opportunity counts, each
half multiplied elementwise by `feature_multiplier`. -/
def advanced_features (player_colour oc : Cell) (m : Mat) : List ℚ :=
  List.zipWith (· * ·)
      (nat_cast_list ((count_open_positions m player_colour).drop 1))
      feature_multiplier
    ++ List.zipWith (· * ·)
      (nat_cast_list ((count_open_positions m oc).drop 1))
      feature_multiplier

/-- The mutable state of a `SimpleFeaturePlayer` (colour fields are modelled
as set, as the orchestrator sets them on construction). -/
structure SimpleFeaturePlayer where
  is_learning : Bool
  epsilon : ℚ
  alpha : ℚ
  player_colour : Cell
  other_colour : Cell
  next_afterstate_value : Option ℚ
  next_afterstate_matrix : Option Mat
  last_afterstate_matrix : Option Mat
  last_afterstate_value : Option ℚ
  parameters : List ℚ

/-- `AfterStatePlayer.receive_reward` as inherited by
`SimpleFeaturePlayer`: when learning and a prior afterstate is on record,
update `parameters += alpha * ((next_value + reward) - last_value) * nabla`
with `nabla = _features(last_afterstate_matrix)`; in every case roll
`next` into `last`.  A `None` stored value reached in the update arithmetic
would be a Python `TypeError`, modelled as `none`. -/
def SimpleFeaturePlayer.receive_reward (p : SimpleFeaturePlayer) (reward : ℚ) :
    Option SimpleFeaturePlayer :=
  if p.is_learning = true ∧ p.last_afterstate_matrix ≠ none then
    match p.last_afterstate_matrix, p.next_afterstate_value, p.last_afterstate_value with
    | some m, some nv, some lv =>
      some { p with
        parameters := vec_add p.parameters
          (vec_smul (p.alpha * ((nv + reward) - lv))
            (simple_features p.player_colour p.other_colour m)),
        last_afterstate_value := p.next_afterstate_value,
        last_afterstate_matrix := p.next_afterstate_matrix }
    | _, _, _ => none
  else
    some { p with
      last_afterstate_value := p.next_afterstate_value,
      last_afterstate_matrix := p.next_afterstate_matrix }

/-- `AfterStatePlayer.set_learning_state`. -/
def SimpleFeaturePlayer.set_learning_state (p : SimpleFeaturePlayer) (is_on : Bool) :
    SimpleFeaturePlayer :=
  { p with is_learning := is_on }

/-- The mutable state of an `AdvancedFeaturePlayer`. -/
structure AdvancedFeaturePlayer where
  is_learning : Bool
  epsilon : ℚ
  alpha : ℚ
  player_colour : Cell
  other_colour : Cell
  next_afterstate_value : Option ℚ
  next_afterstate_matrix : Option Mat
  last_afterstate_matrix : Option Mat
  last_afterstate_value : Option ℚ
  number_experiences_remembered : ℕ
  episode_size : ℕ
  learning_frequency : ℕ
  experiences : List (Mat × Option Mat × ℚ)
  parameters : List ℚ

/-- `AdvancedFeaturePlayer._state_value`:
`np.dot(self._features(grid), self._parameter_vector())`. -/
def AdvancedFeaturePlayer.state_value (p : AdvancedFeaturePlayer) (m : Mat) : ℚ :=
  dotprod (advanced_features p.player_colour p.other_colour m) p.parameters

/-- The batch loop of `AdvancedFeaturePlayer.receive_reward`: builds
`target_values` and `feature_matrix` from the sampled experiences, in
order; a `None` next-matrix would crash `_state_value` (modelled `none`). -/
def episode_rows (p : AdvancedFeaturePlayer) :
    List (Mat × Option Mat × ℚ) → Option (List (List ℚ) × List ℚ)
  | [] => some ([], [])
  | (lm, nm, rw) :: rest =>
    match nm with
    | none => none
    | some nmat =>
      match episode_rows p rest with
      | none => none
      | some (fm, tv) =>
        some (advanced_features p.player_colour p.other_colour lm :: fm,
          (p.state_value nmat + rw) :: tv)

/-- `np.dot(feature_matrix, v)`: one dot product per row. -/
def mat_vec (rows : List (List ℚ)) (v : List ℚ) : List ℚ :=
  rows.map fun row => dotprod row v

/-- `np.dot(feature_matrix.T, w)`: the `w`-weighted sum of the rows. -/
def matT_vec (rows : List (List ℚ)) (w : List ℚ) : List ℚ :=
  (List.zipWith (fun row wi => vec_smul wi row) rows w).foldl vec_add
    (List.replicate 8 0)

/-- `AdvancedFeaturePlayer.receive_reward`.  `random.sample` is modelled by
the oracle argument `sample` (given the buffer and the requested size).
The experience is appended whenever a prior afterstate exists; the batch
gradient step runs only when learning is on and the buffer length is a
nonzero multiple of `learning_frequency`; and `next` rolls into `last`. -/
def AdvancedFeaturePlayer.receive_reward
    (sample : List (Mat × Option Mat × ℚ) → ℕ → List (Mat × Option Mat × ℚ))
    (p : AdvancedFeaturePlayer) (reward : ℚ) : Option AdvancedFeaturePlayer :=
  let exps := match p.last_afterstate_matrix with
    | some lm => p.experiences ++ [(lm, p.next_afterstate_matrix, reward)]
    | none => p.experiences
  if p.is_learning = true ∧ exps.length % p.learning_frequency = 0 ∧ exps.length ≠ 0 then
    let exps2 := if p.number_experiences_remembered < exps.length then
        exps.drop (exps.length - p.number_experiences_remembered)
      else exps
    let episode := sample exps2 (min p.episode_size exps2.length)
    match episode_rows p episode with
    | none => none
    | some (fm, tv) =>
      let nabla_error := vec_smul 2 (matT_vec fm (vec_sub (mat_vec fm p.parameters) tv))
      some { p with
        experiences := exps2,
        parameters := vec_add p.parameters (vec_smul (-p.alpha) nabla_error),
        last_afterstate_value := p.next_afterstate_value,
        last_afterstate_matrix := p.next_afterstate_matrix }
  else
    some { p with
      experiences := exps,
      last_afterstate_value := p.next_afterstate_value,
      last_afterstate_matrix := p.next_afterstate_matrix }

/-- `set_learning_state` as inherited by `AdvancedFeaturePlayer`. -/
def AdvancedFeaturePlayer.set_learning_state (p : AdvancedFeaturePlayer) (is_on : Bool) :
    AdvancedFeaturePlayer :=
  { p with is_learning := is_on }

/-- C7: `receive_reward` on a learning `SimpleFeaturePlayer` with a
recorded prior afterstate performs exactly the linear TD update
`parameters += alpha * ((V(next) + reward) - V(last)) * features(last)`
(the gradient being the feature vector of the last afterstate); with no
prior afterstate on record it performs no parameter update; and in every
non-crashing case it finishes by rolling the next afterstate/value into
the last afterstate/value. -/
theorem simple_receive_reward_spec (p : SimpleFeaturePlayer) (reward : ℚ)
    (m : Mat) (nv lv : ℚ) :
    (p.is_learning = true → p.last_afterstate_matrix = some m →
      p.next_afterstate_value = some nv → p.last_afterstate_value = some lv →
      p.receive_reward reward = some { p with
        parameters := vec_add p.parameters
          (vec_smul (p.alpha * ((nv + reward) - lv))
            (simple_features p.player_colour p.other_colour m)),
        last_afterstate_value := p.next_afterstate_value,
        last_afterstate_matrix := p.next_afterstate_matrix }) ∧
    (p.last_afterstate_matrix = none →
      p.receive_reward reward = some { p with
        last_afterstate_value := p.next_afterstate_value,
        last_afterstate_matrix := p.next_afterstate_matrix }) ∧
    (∀ q, p.receive_reward reward = some q →
      q.last_afterstate_matrix = p.next_afterstate_matrix ∧
      q.last_afterstate_value = p.next_afterstate_value) := by
  refine ⟨?_, ?_, ?_⟩
  · intro hl hm hnv hlv
    unfold SimpleFeaturePlayer.receive_reward
    rw [if_pos ⟨hl, by rw [hm]; simp⟩, hm, hnv, hlv]
  · intro hm
    unfold SimpleFeaturePlayer.receive_reward
    rw [if_neg (by rw [hm]; simp)]
  · intro q hq
    unfold SimpleFeaturePlayer.receive_reward at hq
    by_cases hguard : p.is_learning = true ∧ p.last_afterstate_matrix ≠ none
    · rw [if_pos hguard] at hq
      split at hq
      · injection hq with h
        rw [← h]
        exact ⟨rfl, rfl⟩
      · exact absurd hq (by simp)
    · rw [if_neg hguard] at hq
      injection hq with h
      rw [← h]
      exact ⟨rfl, rfl⟩

/-- A concrete learning player holding a recorded prior afterstate. -/
def witness_simple_player : SimpleFeaturePlayer :=
  { is_learning := true
    epsilon := 1 / 20
    alpha := 1 / 1000
    player_colour := Cell.white
    other_colour := Cell.red
    next_afterstate_value := some 0
    next_afterstate_matrix := some [[Cell.white]]
    last_afterstate_matrix := some [[Cell.empty]]
    last_afterstate_value := some 0
    parameters := [0, 0, 0, 0, 0, 0, 0, 0] }

/-- Witness for C7 at a concrete input. -/
theorem simple_receive_reward_spec_witness :
    witness_simple_player.receive_reward 1 = some { witness_simple_player with
      parameters := vec_add witness_simple_player.parameters
        (vec_smul (witness_simple_player.alpha * ((0 + 1) - 0))
          (simple_features witness_simple_player.player_colour
            witness_simple_player.other_colour [[Cell.empty]])),
      last_afterstate_value := witness_simple_player.next_afterstate_value,
      last_afterstate_matrix := witness_simple_player.next_afterstate_matrix } :=
  (simple_receive_reward_spec witness_simple_player 1 [[Cell.empty]] 0 0).1 rfl rfl rfl rfl

theorem foldl_cop_step_length (g : Mat) (player_colour oc : Cell) (numRows numCols : ℕ) :
    ∀ (ts : List (ℕ × ℕ × ℤ × ℤ)) (counts : List ℕ),
      (ts.foldl (cop_step g player_colour oc numRows numCols) counts).length
        = counts.length := by
  intro ts
  induction ts with
  | nil => intro counts; rfl
  | cons t ts0 ih =>
    intro counts
    rw [List.foldl_cons, ih, cop_step_length]

theorem count_open_positions_length (g : Mat) (player_colour : Cell) :
    (count_open_positions g player_colour).length = 5 := by
  unfold count_open_positions
  rw [foldl_cop_step_length]
  rfl

/-- A 4×4 grid holding a single White disc at its lower-left corner. -/
def one_disc_mat : Mat :=
  [[Cell.white, Cell.empty, Cell.empty, Cell.empty],
   [Cell.empty, Cell.empty, Cell.empty, Cell.empty],
   [Cell.empty, Cell.empty, Cell.empty, Cell.empty],
   [Cell.empty, Cell.empty, Cell.empty, Cell.empty]]

/-- C8 counterexample: on `one_disc_mat` the White player's feature vector
from `AdvancedFeaturePlayer._features` differs from
`SimpleFeaturePlayer._features` (the first bucket is rescaled by 0.05). -/
theorem features_not_identical :
    advanced_features Cell.white Cell.red one_disc_mat
      ≠ simple_features Cell.white Cell.red one_disc_mat := by
  have h1 : count_open_positions one_disc_mat Cell.white = [7, 3, 0, 0, 0] := by decide
  have h2 : count_open_positions one_disc_mat Cell.red = [7, 0, 0, 0, 0] := by decide
  simp only [advanced_features, simple_features, h1, h2, feature_multiplier, nat_cast_list]
  intro hcontra
  have hhead := congrArg (fun l => l.getD 0 0) hcontra
  simp only [List.drop, List.map_cons, List.map_nil, List.zipWith_cons_cons,
    List.zipWith_nil_right, List.cons_append, List.getD_cons_zero] at hhead
  norm_num at hhead

/-- C8 amended: the Replay Learner extracts the same opportunity counts as
the base value player, but rescales them: its 8-dimensional feature vector
equals the `SimpleFeaturePlayer` vector multiplied componentwise by the
normalisation vector (0.05, 0.2, 0.8, 1) repeated for both halves (so the
two are not identical in general, and identical move selection does not
follow). -/
theorem advanced_features_rescaled (player_colour oc : Cell) (m : Mat) :
    advanced_features player_colour oc m
      = List.zipWith (· * ·) (simple_features player_colour oc m)
          (feature_multiplier ++ feature_multiplier) := by
  unfold advanced_features simple_features
  rw [List.zipWith_append]
  unfold nat_cast_list
  rw [List.length_map, List.length_drop, count_open_positions_length]
  rfl

/-- C10: with learning disabled, `receive_reward` never touches the
parameter vector of either player type: the `SimpleFeaturePlayer` call only
rolls next into last, the `AdvancedFeaturePlayer` call additionally still
appends the experience to its buffer; `set_learning_state False` switches
learning off, and `receive_reward` leaves the learning flag off, so the
same holds for every subsequent call until learning is re-enabled. -/
theorem learning_disabled_no_update (ps : SimpleFeaturePlayer) (pa : AdvancedFeaturePlayer)
    (sample : List (Mat × Option Mat × ℚ) → ℕ → List (Mat × Option Mat × ℚ)) (r1 r2 : ℚ)
    (hs : ps.is_learning = false) (ha : pa.is_learning = false) :
    ps.receive_reward r1 = some { ps with
      last_afterstate_value := ps.next_afterstate_value,
      last_afterstate_matrix := ps.next_afterstate_matrix } ∧
    AdvancedFeaturePlayer.receive_reward sample pa r2 = some { pa with
      experiences := (match pa.last_afterstate_matrix with
        | some lm => pa.experiences ++ [(lm, pa.next_afterstate_matrix, r2)]
        | none => pa.experiences),
      last_afterstate_value := pa.next_afterstate_value,
      last_afterstate_matrix := pa.next_afterstate_matrix } ∧
    (ps.set_learning_state false).is_learning = false ∧
    (pa.set_learning_state false).is_learning = false ∧
    (∀ q, ps.receive_reward r1 = some q → q.is_learning = false) ∧
    (∀ q, AdvancedFeaturePlayer.receive_reward sample pa r2 = some q →
      q.is_learning = false) := by
  have e1 : ps.receive_reward r1 = some { ps with
      last_afterstate_value := ps.next_afterstate_value,
      last_afterstate_matrix := ps.next_afterstate_matrix } := by
    unfold SimpleFeaturePlayer.receive_reward
    rw [if_neg (by simp [hs])]
  have e2 : AdvancedFeaturePlayer.receive_reward sample pa r2 = some { pa with
      experiences := (match pa.last_afterstate_matrix with
        | some lm => pa.experiences ++ [(lm, pa.next_afterstate_matrix, r2)]
        | none => pa.experiences),
      last_afterstate_value := pa.next_afterstate_value,
      last_afterstate_matrix := pa.next_afterstate_matrix } := by
    simp only [AdvancedFeaturePlayer.receive_reward, ha]
    rw [if_neg (by simp)]
  refine ⟨e1, e2, rfl, rfl, ?_, ?_⟩
  · intro q hq
    rw [e1] at hq
    injection hq with h
    rw [← h]
    exact hs
  · intro q hq
    rw [e2] at hq
    injection hq with h
    rw [← h]
    exact ha

/-- A concrete non-learning `SimpleFeaturePlayer`. -/
def frozen_simple_player : SimpleFeaturePlayer :=
  { witness_simple_player with is_learning := false }

/-- A concrete non-learning `AdvancedFeaturePlayer`. -/
def frozen_advanced_player : AdvancedFeaturePlayer :=
  { is_learning := false
    epsilon := 1 / 20
    alpha := 1 / 1000
    player_colour := Cell.white
    other_colour := Cell.red
    next_afterstate_value := some 0
    next_afterstate_matrix := some [[Cell.white]]
    last_afterstate_matrix := some [[Cell.empty]]
    last_afterstate_value := some 0
    number_experiences_remembered := 1000
    episode_size := 100
    learning_frequency := 100
    experiences := []
    parameters := [0, 0, 0, 0, 0, 0, 0, 0] }

/-- Witness for C10 at concrete inputs. -/
theorem learning_disabled_no_update_witness :
    frozen_simple_player.receive_reward 0 = some { frozen_simple_player with
      last_afterstate_value := frozen_simple_player.next_afterstate_value,
      last_afterstate_matrix := frozen_simple_player.next_afterstate_matrix } ∧
    AdvancedFeaturePlayer.receive_reward (fun l _ => l) frozen_advanced_player 0
      = some { frozen_advanced_player with
        experiences := (match frozen_advanced_player.last_afterstate_matrix with
          | some lm => frozen_advanced_player.experiences
              ++ [(lm, frozen_advanced_player.next_afterstate_matrix, 0)]
          | none => frozen_advanced_player.experiences),
        last_afterstate_value := frozen_advanced_player.next_afterstate_value,
        last_afterstate_matrix := frozen_advanced_player.next_afterstate_matrix } ∧
    (frozen_simple_player.set_learning_state false).is_learning = false ∧
    (frozen_advanced_player.set_learning_state false).is_learning = false ∧
    (∀ q, frozen_simple_player.receive_reward 0 = some q → q.is_learning = false) ∧
    (∀ q, AdvancedFeaturePlayer.receive_reward (fun l _ => l) frozen_advanced_player 0
      = some q → q.is_learning = false) :=
  learning_disabled_no_update frozen_simple_player frozen_advanced_player
    (fun l _ => l) 0 0 rfl rfl

/-! ## `connectfourgame.ConnectFourMatch.play` (C5) -/

/-- Reward constants of connectfourgame.py. -/
def REWARD_DRAW : ℤ := 0

def REWARD_LEGAL_MOVE : ℤ := 0

def REWARD_ILLEGAL_MOVE : ℤ := -2

def REWARD_LOSS : ℤ := -1

def REWARD_WIN : ℤ := 1

/-- `max_number_of_moves = ROWS * COLUMNS`. -/
def max_number_of_moves : ℕ := ROWS * COLUMNS

/-- The two observable calls the Orchestrator makes on a player. -/
inductive Ev where
  | propose
  | reward
deriving DecidableEq, Repr

/-- A player object as the Orchestrator sees it: a state machine with
`propose_move` (returning a column, possibly illegal or out of range) and
`receive_reward`.  Quantifying over the state type covers every player. -/
structure PlayerM (σ : Type) where
  propose_move : σ → ConnectFour → ℤ × σ
  receive_reward : σ → ℤ → σ

/-- The loop of `ConnectFourMatch.play`, with the per-player call events
logged (`tw` for White, `tr` for Red, in call order).  The result is
`none` when the match aborts on an uncaught exception (numpy `IndexError`
from an out-of-range move, or the unreachable `ValueError`), otherwise the
two event logs and the returned winner (`none` = draw).  When the fuel
(remaining loop iterations) runs out, Python's `for` ends and `play`
returns `None`; the draw branch at `move_number == max_number_of_moves - 1`
makes that unreachable. -/
def play_match_aux {σ₁ σ₂ : Type} (pw : PlayerM σ₁) (pr : PlayerM σ₂) :
    ℕ → ℕ → ConnectFour → σ₁ → σ₂ → List Ev → List Ev →
      Option (List Ev × List Ev × Option Cell)
  | 0, _, _, _, _, tw, tr => some (tw, tr, none)
  | fuel + 1, moveNo, board, sw, sr, tw, tr =>
    if moveNo % 2 = 0 then
      let pm := pw.propose_move sw board
      let tw1 := tw ++ [Ev.propose]
      match add_disc board pm.1 Cell.white with
      | Except.error MoveErr.illegalMove =>
        if 0 < moveNo then
          some (tw1 ++ [Ev.reward], tr ++ [Ev.reward], some Cell.red)
        else
          some (tw1 ++ [Ev.reward], tr, some Cell.red)
      | Except.error MoveErr.indexError => none
      | Except.error MoveErr.valueError => none
      | Except.ok board2 =>
        if board2.winner ≠ none then
          some (tw1 ++ [Ev.reward], tr ++ [Ev.reward], some Cell.white)
        else if moveNo = max_number_of_moves - 1 then
          some (tw1 ++ [Ev.reward], tr ++ [Ev.reward], none)
        else if 0 < moveNo then
          play_match_aux pw pr fuel (moveNo + 1) board2 pm.2
            (pr.receive_reward sr REWARD_LEGAL_MOVE) tw1 (tr ++ [Ev.reward])
        else
          play_match_aux pw pr fuel (moveNo + 1) board2 pm.2 sr tw1 tr
    else
      let pm := pr.propose_move sr board
      let tr1 := tr ++ [Ev.propose]
      match add_disc board pm.1 Cell.red with
      | Except.error MoveErr.illegalMove =>
        if 0 < moveNo then
          some (tw ++ [Ev.reward], tr1 ++ [Ev.reward], some Cell.white)
        else
          some (tw, tr1 ++ [Ev.reward], some Cell.white)
      | Except.error MoveErr.indexError => none
      | Except.error MoveErr.valueError => none
      | Except.ok board2 =>
        if board2.winner ≠ none then
          some (tw ++ [Ev.reward], tr1 ++ [Ev.reward], some Cell.red)
        else if moveNo = max_number_of_moves - 1 then
          some (tw ++ [Ev.reward], tr1 ++ [Ev.reward], none)
        else if 0 < moveNo then
          play_match_aux pw pr fuel (moveNo + 1) board2
            (pw.receive_reward sw REWARD_LEGAL_MOVE) pm.2 (tw ++ [Ev.reward]) tr1
        else
          play_match_aux pw pr fuel (moveNo + 1) board2 sw pm.2 tw tr1

/-- `ConnectFourMatch.play()` on a fresh board. -/
def play_match {σ₁ σ₂ : Type} (pw : PlayerM σ₁) (pr : PlayerM σ₂) (s1 : σ₁) (s2 : σ₂) :
    Option (List Ev × List Ev × Option Cell) :=
  play_match_aux pw pr max_number_of_moves 0 init_board s1 s2 [] []

/-- The strict alternation pattern: `k` pairs of (propose, reward). -/
def pairs_events : ℕ → List Ev
  | 0 => []
  | k + 1 => pairs_events k ++ [Ev.propose, Ev.reward]

/-- A single disc on a fresh board can never complete a run of 4: the very
first successful `add_disc` never sets a winner. -/
theorem add_disc_init_no_winner (mv : ℤ) (b2 : ConnectFour)
    (h : add_disc init_board mv Cell.white = Except.ok b2) : b2.winner = none := by
  by_cases hrange : column_in_numpy_range mv
  · have heff : (effective_column mv).toNat < COLUMNS := effective_column_lt mv hrange
    have hcol0 : init_board.grid.getD (effective_column mv).toNat []
        = List.replicate 6 Cell.empty := by
      show (List.replicate 7 (List.replicate 6 Cell.empty)).getD _ [] = _
      rw [List.getD_eq_getElem?_getD,
        List.getElem?_eq_getElem (by simpa [COLUMNS] using heff)]
      simp only [Option.getD_some, List.getElem_replicate]
    have hr : placed_row init_board.grid mv = some 0 := by
      unfold placed_row
      rw [hcol0]
      rfl
    obtain ⟨_, hgrid, hwin⟩ := add_disc_ok_decompose init_board mv Cell.white b2 0 h hr
    have hall : ∀ e : ℕ, e < 14 →
        check_winner_at_location
          (init_board.grid.set (effective_column ((e : ℤ) - 7)).toNat
            ((init_board.grid.getD (effective_column ((e : ℤ) - 7)).toNat []).set
              0 Cell.white))
          ((0 : ℕ) : ℤ) ((e : ℤ) - 7) = false := by
      decide
    unfold column_in_numpy_range COLUMNS at hrange
    have he : (((mv + 7).toNat : ℕ) : ℤ) - 7 = mv := by omega
    have hchk := hall (mv + 7).toNat (by omega)
    rw [he] at hchk
    rw [← hgrid] at hchk
    rw [hwin, hchk]
    rfl
  · unfold add_disc at h
    rw [if_neg hrange] at h
    exact absurd h (by simp)

theorem pairs_events_succ (k : ℕ) :
    pairs_events (k + 1) = pairs_events k ++ [Ev.propose, Ev.reward] := rfl

theorem append_propose_reward (l : List Ev) :
    (l ++ [Ev.propose]) ++ [Ev.reward] = l ++ [Ev.propose, Ev.reward] := by
  simp

/-- Invariant induction over the play loop: starting from a state where the
player who moved last has one pending `propose` and the other player's log
is complete pairs, any completed match ends with both logs being complete
(propose, reward) pairs. -/
theorem play_match_aux_balanced {σ₁ σ₂ : Type} (pw : PlayerM σ₁) (pr : PlayerM σ₂) :
    ∀ (fuel moveNo : ℕ) (board : ConnectFour) (sw : σ₁) (sr : σ₂)
      (tw tr : List Ev) (kw kr : ℕ),
      fuel + moveNo = max_number_of_moves → moveNo ≤ max_number_of_moves - 1 →
      (moveNo = 0 → board = init_board ∧ tw = [] ∧ tr = []) →
      (moveNo % 2 = 0 → 0 < moveNo →
        tw = pairs_events kw ∧ tr = pairs_events kr ++ [Ev.propose]) →
      (moveNo % 2 = 1 →
        tr = pairs_events kr ∧ tw = pairs_events kw ++ [Ev.propose]) →
      ∀ out, play_match_aux pw pr fuel moveNo board sw sr tw tr = some out →
        (∃ k, out.1 = pairs_events k) ∧ (∃ j, out.2.1 = pairs_events j) := by
  intro fuel
  induction fuel with
  | zero =>
    intro moveNo board sw sr tw tr kw kr h42 h41 h0 heven hodd out hout
    exact absurd h42 (by have hmax : max_number_of_moves = 42 := rfl; omega)
  | succ fuel ih =>
    intro moveNo board sw sr tw tr kw kr h42 h41 h0 heven hodd out hout
    have hmax : max_number_of_moves = 42 := rfl
    simp only [play_match_aux] at hout
    by_cases hpar : moveNo % 2 = 0
    · rw [if_pos hpar] at hout
      split at hout
      · -- IllegalMove raised on White's move
        split at hout
        · rename_i hpos
          obtain ⟨htw, htr⟩ := heven hpar hpos
          injection hout with h
          subst h
          refine ⟨⟨kw + 1, ?_⟩, ⟨kr + 1, ?_⟩⟩
          · show (tw ++ [Ev.propose]) ++ [Ev.reward] = pairs_events (kw + 1)
            rw [htw, append_propose_reward]
            exact (pairs_events_succ kw).symm
          · show tr ++ [Ev.reward] = pairs_events (kr + 1)
            rw [htr, append_propose_reward]
            exact (pairs_events_succ kr).symm
        · rename_i hpos
          have h00 : moveNo = 0 := by omega
          obtain ⟨hb, htw2, htr2⟩ := h0 h00
          injection hout with h
          subst h
          subst htw2
          subst htr2
          exact ⟨⟨1, by simp [pairs_events]⟩, ⟨0, by simp [pairs_events]⟩⟩
      · exact absurd hout (by simp)
      · exact absurd hout (by simp)
      · -- White's move succeeded
        rename_i board2 heq
        split at hout
        · -- a winner is recorded
          rename_i hwin2
          by_cases hpos : 0 < moveNo
          · obtain ⟨htw, htr⟩ := heven hpar hpos
            injection hout with h
            subst h
            refine ⟨⟨kw + 1, ?_⟩, ⟨kr + 1, ?_⟩⟩
            · show (tw ++ [Ev.propose]) ++ [Ev.reward] = pairs_events (kw + 1)
              rw [htw, append_propose_reward]
              exact (pairs_events_succ kw).symm
            · show tr ++ [Ev.reward] = pairs_events (kr + 1)
              rw [htr, append_propose_reward]
              exact (pairs_events_succ kr).symm
          · have h00 : moveNo = 0 := by omega
            obtain ⟨hb, htw2, htr2⟩ := h0 h00
            subst hb
            exact absurd (add_disc_init_no_winner _ board2 heq) hwin2
        · split at hout
          · -- draw branch: impossible on an even move number
            rename_i hdraw
            exact absurd hdraw (by omega)
          · split at hout
            · -- continue, moveNo > 0: Red is rewarded for its last move
              rename_i hwin2 hdraw hpos
              obtain ⟨htw, htr⟩ := heven hpar hpos
              apply ih (moveNo + 1) board2 _ _ (tw ++ [Ev.propose]) (tr ++ [Ev.reward])
                kw (kr + 1) (by omega) (by omega)
                (fun habs => absurd habs (by omega))
                (fun habs _ => absurd habs (by omega))
                (fun _ => ⟨by rw [htr, append_propose_reward]; exact (pairs_events_succ kr).symm,
                  by rw [htw]⟩)
                out hout
            · -- continue, first move: nobody is rewarded yet
              rename_i hwin2 hdraw hpos
              have h00 : moveNo = 0 := by omega
              obtain ⟨hb, htw2, htr2⟩ := h0 h00
              subst htw2
              subst htr2
              apply ih (moveNo + 1) board2 _ _ ([] ++ [Ev.propose]) [] 0 0
                (by omega) (by omega)
                (fun habs => absurd habs (by omega))
                (fun habs _ => absurd habs (by omega))
                (fun _ => ⟨rfl, rfl⟩)
                out hout
    · have hpar2 : moveNo % 2 = 1 := by omega
      rw [if_neg hpar] at hout
      obtain ⟨htr, htw⟩ := hodd hpar2
      split at hout
      · -- IllegalMove raised on Red's move
        split at hout
        · injection hout with h
          subst h
          refine ⟨⟨kw + 1, ?_⟩, ⟨kr + 1, ?_⟩⟩
          · show tw ++ [Ev.reward] = pairs_events (kw + 1)
            rw [htw, append_propose_reward]
            exact (pairs_events_succ kw).symm
          · show (tr ++ [Ev.propose]) ++ [Ev.reward] = pairs_events (kr + 1)
            rw [htr, append_propose_reward]
            exact (pairs_events_succ kr).symm
        · rename_i hpos
          exact absurd hpar2 (by omega)
      · exact absurd hout (by simp)
      · exact absurd hout (by simp)
      · -- Red's move succeeded
        rename_i board2 heq
        split at hout
        · -- winner
          injection hout with h
          subst h
          refine ⟨⟨kw + 1, ?_⟩, ⟨kr + 1, ?_⟩⟩
          · show tw ++ [Ev.reward] = pairs_events (kw + 1)
            rw [htw, append_propose_reward]
            exact (pairs_events_succ kw).symm
          · show (tr ++ [Ev.propose]) ++ [Ev.reward] = pairs_events (kr + 1)
            rw [htr, append_propose_reward]
            exact (pairs_events_succ kr).symm
        · split at hout
          · -- draw on the final move number
            injection hout with h
            subst h
            refine ⟨⟨kw + 1, ?_⟩, ⟨kr + 1, ?_⟩⟩
            · show tw ++ [Ev.reward] = pairs_events (kw + 1)
              rw [htw, append_propose_reward]
              exact (pairs_events_succ kw).symm
            · show (tr ++ [Ev.propose]) ++ [Ev.reward] = pairs_events (kr + 1)
              rw [htr, append_propose_reward]
              exact (pairs_events_succ kr).symm
          · split at hout
            · -- continue: White is rewarded for its last move
              rename_i hwin2 hdraw hpos
              refine ih (moveNo + 1) board2 _ _ (tw ++ [Ev.reward]) (tr ++ [Ev.propose])
                (kw + 1) kr (by omega) (by omega)
                (fun habs => absurd habs (by omega))
                ?_
                (fun habs => absurd habs (by omega))
                out hout
              intro _ _
              constructor
              · rw [htw, append_propose_reward]
                exact (pairs_events_succ kw).symm
              · rw [htr]
            · rename_i hwin2 hdraw hpos
              exact absurd hpar2 (by omega)

theorem pairs_events_count_propose (j : ℕ) :
    (pairs_events j).count Ev.propose = j := by
  induction j with
  | zero => rfl
  | succ j0 ihj =>
    rw [pairs_events_succ, List.count_append, ihj]
    rfl

/-- C5: for every pair of players (any state machines, including ones that
propose illegal moves) and every match `play` brings to completion, each
player's call log is a whole number of strict (propose_move,
receive_reward) pairs: calls alternate starting with `propose_move` and the
final reward count equals the proposal count; in particular a player that
never proposed (e.g. the second mover when the very first move ends the
match as illegal) receives no reward at all. -/
theorem play_alternation_balanced {σ₁ σ₂ : Type} (pw : PlayerM σ₁) (pr : PlayerM σ₂)
    (s1 : σ₁) (s2 : σ₂) (tw tr : List Ev) (res : Option Cell)
    (h : play_match pw pr s1 s2 = some (tw, tr, res)) :
    (∃ k, tw = pairs_events k) ∧ (∃ j, tr = pairs_events j) ∧
      (tr.count Ev.propose = 0 → tr = []) := by
  have hmain := play_match_aux_balanced pw pr max_number_of_moves 0 init_board s1 s2
    [] [] 0 0 rfl (by have hmax : max_number_of_moves = 42 := rfl; omega)
    (fun _ => ⟨rfl, rfl, rfl⟩)
    (fun _ h2 => absurd h2 (by omega))
    (fun h1 => absurd h1 (by omega))
    (tw, tr, res) h
  refine ⟨hmain.1, hmain.2, ?_⟩
  intro hcnt
  obtain ⟨j, hj⟩ := hmain.2
  have hj2 : tr = pairs_events j := hj
  rw [hj2] at hcnt ⊢
  rw [pairs_events_count_propose] at hcnt
  rw [hcnt]
  rfl

/-- A player that always proposes column 0 with trivial state. -/
def always_zero_player : PlayerM Unit :=
  ⟨fun s _ => (0, s), fun s _ => s⟩

/-- The call logs of the match of two `always_zero_player`s: column 0 fills
after 6 legal moves and White's 7th proposal is illegal, ending the match. -/
def witness_white_trace : List Ev :=
  [Ev.propose, Ev.reward, Ev.propose, Ev.reward, Ev.propose, Ev.reward,
   Ev.propose, Ev.reward]

def witness_red_trace : List Ev :=
  [Ev.propose, Ev.reward, Ev.propose, Ev.reward, Ev.propose, Ev.reward]

/-- Witness for C5 at a concrete match. -/
theorem play_alternation_balanced_witness :
    (∃ k, witness_white_trace = pairs_events k) ∧
    (∃ j, witness_red_trace = pairs_events j) ∧
    (witness_red_trace.count Ev.propose = 0 → witness_red_trace = []) :=
  play_alternation_balanced always_zero_player always_zero_player () ()
    witness_white_trace witness_red_trace (some Cell.red) (by decide)
